import Mathlib

/-!
# Verification of the widcc compiler core against its specification

This development shallowly embeds the parts of the widcc C compiler
(src/type.c, src/parse.c, src/preprocess.c, src/codegen.c) that the
specification's checked claims are about, and proves or refutes each claim.

Conventions:
* C `int`/`int64_t` arithmetic is modelled by `Int` with explicit wrapping
  (`% 2^64` / `% 2^32`) where the C code relies on two's-complement
  wrap-around.
* Fallible C code paths (`error_tok`, `internal_error`, `exit(1)`) are
  modelled with `Option`/`Except`.
* Each embedded definition keeps the name of the C function it translates.
-/

namespace Widcc

/-! ## Type system (src/type.c)

`TypeKind` and `Type` mirror the tagged variant of src/widcc.h as used by
src/type.c.  Only the fields consulted by the embedded functions are kept
(`kind`, `size`, `align`, `is_unsigned`). -/

inductive TyKind where
  | void | bool | pchar | char | short | int | long | longlong
  | float | double | ldouble
  | ptr | array | vla | func | tstruct | tunion | enum
  deriving DecidableEq, Repr

structure Ty where
  kind : TyKind
  size : Int
  align : Int
  is_unsigned : Bool := false
  deriving DecidableEq, Repr

/-- `Type *ty_void = &(Type){TY_VOID, 1, 1};` (src/type.c:3) -/
def ty_void : Ty := ⟨.void, 1, 1, false⟩

/-- src/type.c:4 -/
def ty_bool : Ty := ⟨.bool, 1, 1, true⟩

/-- src/type.c:6 -/
def ty_pchar : Ty := ⟨.pchar, 1, 1, false⟩

/-- src/type.c:8 -/
def ty_char : Ty := ⟨.char, 1, 1, false⟩

/-- src/type.c:9 -/
def ty_short : Ty := ⟨.short, 2, 2, false⟩

/-- src/type.c:10 -/
def ty_int : Ty := ⟨.int, 4, 4, false⟩

/-- src/type.c:11 -/
def ty_long : Ty := ⟨.long, 8, 8, false⟩

/-- src/type.c:12 -/
def ty_llong : Ty := ⟨.longlong, 8, 8, false⟩

/-- src/type.c:14 -/
def ty_uchar : Ty := ⟨.char, 1, 1, true⟩

/-- src/type.c:15 -/
def ty_ushort : Ty := ⟨.short, 2, 2, true⟩

/-- src/type.c:16 -/
def ty_uint : Ty := ⟨.int, 4, 4, true⟩

/-- src/type.c:17 -/
def ty_ulong : Ty := ⟨.long, 8, 8, true⟩

/-- src/type.c:18 -/
def ty_ullong : Ty := ⟨.longlong, 8, 8, true⟩

/-- src/type.c:20 -/
def ty_float : Ty := ⟨.float, 4, 4, false⟩

/-- src/type.c:21 -/
def ty_double : Ty := ⟨.double, 8, 8, false⟩

/-- src/type.c:22 -/
def ty_ldouble : Ty := ⟨.ldouble, 16, 16, false⟩

/-- `is_integer` (src/type.c:55). -/
def is_integer (ty : Ty) : Bool :=
  match ty.kind with
  | .bool | .pchar | .char | .short | .int | .long | .longlong => true
  | _ => false

/-- `is_flonum` (src/type.c:61). -/
def is_flonum (ty : Ty) : Bool :=
  match ty.kind with
  | .float | .double | .ldouble => true
  | _ => false

/-- `is_numeric` (src/type.c:66). -/
def is_numeric (ty : Ty) : Bool :=
  is_integer ty || is_flonum ty

/-- `int_rank` (src/type.c:207).  The C function calls `internal_error()`
on any other kind; that is modelled as `none`. -/
def int_rank (t : Ty) : Option Nat :=
  match t.kind with
  | .bool | .char | .short => some 0
  | .int => some 1
  | .long => some 2
  | .longlong => some 3
  | _ => none

/-- `int_promotion` (src/type.c:238), acting on the operand's type.
`bf` is the result of the `is_bitfield2` probe: `some w` when the operand
is a bit-field access of width `w`, else `none`.  The rewrite of the node
into a cast is modelled by returning the promoted type; `internal_error`
inside `int_rank` is modelled by `none`. -/
def int_promotion (bf : Option Int) (ty : Ty) : Option Ty :=
  match bf with
  | some bit_width =>
    let int_width : Int := ty_int.size * 8
    if bit_width = int_width && ty.is_unsigned then
      some ty_uint
    else if bit_width ≤ int_width then
      some ty_int
    else
      some ty
  | none =>
    if ty.size < ty_int.size then
      some ty_int
    else if ty.size = ty_int.size then
      match int_rank ty with
      | none => none
      | some r =>
        if r < 1 then
          some (if ty.is_unsigned then ty_uint else ty_int)
        else
          some ty
    else
      some ty

/-- The integer tail of `get_common_type` (src/type.c:305-323): the choice
of the common type from the two already-promoted operand types.
`internal_error` is modelled by `none`. -/
def common_int_type (ty1 ty2 : Ty) : Option Ty :=
  if ty1.size ≠ ty2.size then
    some (if ty1.size < ty2.size then ty2 else ty1)
  else
    match int_rank ty1, int_rank ty2 with
    | some r1, some r2 =>
      let ranked_ty := if r1 > r2 then ty1 else ty2
      if ty1.is_unsigned = ty2.is_unsigned then
        some ranked_ty
      else
        match ranked_ty.kind with
        | .int => some ty_uint
        | .long => some ty_ulong
        | .longlong => some ty_ullong
        | _ => none
    | _, _ => none

/-- `get_common_type` (src/type.c:286) on the operand types, for operands
that are not bit-field accesses (`is_bitfield2` fails on them, so
`int_promotion` takes its non-bit-field path).  `error_tok` and
`internal_error` are modelled by `none`. -/
def get_common_type (ty1 ty2 : Ty) : Option Ty :=
  if ¬ (is_numeric ty1 && is_numeric ty2) then
    none
  else if ty1.kind = .ldouble || ty2.kind = .ldouble then
    some ty_ldouble
  else if ty1.kind = .double || ty2.kind = .double then
    some ty_double
  else if ty1.kind = .float || ty2.kind = .float then
    some ty_float
  else
    match int_promotion none ty1, int_promotion none ty2 with
    | some p1, some p2 => common_int_type p1 p2
    | _, _ => none

/-- The integer types of src/type.c as they can appear on operands. -/
def widccIntTypes : List Ty :=
  [ty_bool, ty_pchar, ty_char, ty_uchar, ty_short, ty_ushort,
   ty_int, ty_uint, ty_long, ty_ulong, ty_llong, ty_ullong]

/-- The possible results of integer promotion. -/
def promotedIntTypes : List Ty :=
  [ty_int, ty_uint, ty_long, ty_ulong, ty_llong, ty_ullong]

/-- Spec phrase "the higher-ranked of the two" (ranks of promoted types
are defined; `getD 0` is never consulted on them). -/
def higher_ranked (t1 t2 : Ty) : Ty :=
  if (int_rank t1).getD 0 > (int_rank t2).getD 0 then t1 else t2

/-- Spec phrase "the unsigned variant of" a promoted type. -/
def unsigned_variant (t : Ty) : Ty :=
  match t.kind with
  | .int => ty_uint
  | .long => ty_ulong
  | .longlong => ty_ullong
  | _ => t

/-- Spec phrase "the wider" of two types. -/
def wider_ty (t1 t2 : Ty) : Ty :=
  if t1.size < t2.size then t2 else t1

/-- The claim's description of the common type of two promoted types. -/
def claimedCommonType (p1 p2 : Ty) : Ty :=
  if p1.size = p2.size ∧ p1.is_unsigned = p2.is_unsigned then
    higher_ranked p1 p2
  else if p1.size = p2.size then
    unsigned_variant (higher_ranked p1 p2)
  else
    wider_ty p1 p2

/-- C1: for every pair of integer operands, after integer promotion of
both operands, the common type chosen by `get_common_type` is: the
higher-ranked type when sizes and signedness agree; the unsigned variant
of the higher-ranked type when sizes agree but signedness differs; the
wider type otherwise.  (Integer promotion of any widcc integer type lands
in `promotedIntTypes`, and on those the selection matches the claim.) -/
theorem c1_usual_arith_conv_common_type :
    (∀ t ∈ widccIntTypes, ∃ p ∈ promotedIntTypes, int_promotion none t = some p) ∧
    (∀ p1 ∈ promotedIntTypes, ∀ p2 ∈ promotedIntTypes,
      common_int_type p1 p2 = some (claimedCommonType p1 p2)) := by
  decide

/-- Witness for C1 at a concrete pair: `long` and `unsigned int` have
different sizes after promotion, and the common type is the wider `long`;
`long` and `unsigned long` have the same size and mixed signedness, and
the common type is `unsigned long`. -/
theorem c1_witness :
    common_int_type ty_long ty_ulong = some ty_ulong ∧
    common_int_type ty_long ty_uint = some ty_long := by
  refine ⟨?_, ?_⟩
  · exact (c1_usual_arith_conv_common_type.2 ty_long (by decide) ty_ulong (by decide)).trans
      (by decide)
  · exact (c1_usual_arith_conv_common_type.2 ty_long (by decide) ty_uint (by decide)).trans
      (by decide)

/-! ## Struct layout (src/parse.c `struct_decl`)

C `int` division truncates toward zero; it is modelled by `Int.tdiv`.
All quantities reaching these helpers in `struct_decl` are non-negative. -/

/-- `align_to` (src/codegen.c:124). -/
def align_to (n align : Int) : Int :=
  ((n + align - 1).tdiv align) * align

/-- `align_down` (src/parse.c:147). -/
def align_down (n align : Int) : Int :=
  align_to (n - align + 1) align

/-- `Member` (src/widcc.h), with the fields used by `struct_decl`. -/
structure Member where
  name : Option String := none
  ty : Ty
  is_bitfield : Bool := false
  bit_width : Int := 0
  offset : Int := 0
  bit_offset : Int := 0
  deriving DecidableEq, Repr

/-- `!mem->is_bitfield || mem->name` (src/parse.c:2859): whether a member
stays in the struct's member list and feeds `max_align`. -/
def keepMem (m : Member) : Bool :=
  !m.is_bitfield || m.name.isSome

/-- One iteration of the member loop of `struct_decl`
(src/parse.c:2863-2884): assigns the member's offsets and advances the bit
cursor.  Returns (updated member, new bit cursor). -/
def layoutStep (packed : Bool) (bits : Int) (mem : Member) : Member × Int :=
  if mem.is_bitfield then
    if mem.bit_width = 0 then
      (mem, align_to bits (mem.ty.size * 8))
    else
      let sz := mem.ty.size
      let bits1 :=
        if ¬packed ∧ bits.tdiv (sz * 8) ≠ (bits + mem.bit_width - 1).tdiv (sz * 8) then
          align_to bits (sz * 8)
        else bits
      ({ mem with offset := align_down (bits1.tdiv 8) sz,
                  bit_offset := bits1.tmod (sz * 8) },
       bits1 + mem.bit_width)
  else
    let bits1 := if packed then align_to bits 8 else align_to bits (mem.ty.align * 8)
    ({ mem with offset := bits1.tdiv 8 }, bits1 + mem.ty.size * 8)

/-- The member loop of `struct_decl` (src/parse.c:2858-2885): threads the
running bit cursor `bits` and `max_align`, assigns offsets, and keeps the
members passing `keepMem`.  Returns (kept members, final bits, max_align). -/
def struct_layout (packed : Bool) : Int → Int → List Member → List Member × Int × Int
  | bits, ma, [] => ([], bits, ma)
  | bits, ma, mem :: rest =>
    let s := layoutStep packed bits mem
    let ma' := if keepMem mem then max ma mem.ty.align else ma
    let r := struct_layout packed s.2 ma' rest
    ((if keepMem mem then s.1 :: r.1 else r.1), r.2)

/-- `if (!ty->is_packed && max_align) ty->align = max_align;`
(src/parse.c:2889): the final struct alignment, starting from the initial
alignment 1 given by `new_type(kind, -1, 1)` (src/parse.c:2807). -/
def structAlign (packed : Bool) (ma : Int) : Int :=
  if ¬packed ∧ ma ≠ 0 then ma else 1

/-- `struct_decl` (src/parse.c:2852).
Returns (member list, struct alignment, struct size). -/
def struct_decl (packed : Bool) (members : List Member) : List Member × Int × Int :=
  let r := struct_layout packed 0 0 members
  let align := structAlign packed r.2.2
  let size :=
    if packed then (align_to r.2.1 8).tdiv 8
    else (align_to r.2.1 (align * 8)).tdiv 8
  (r.1, align, size)

/-- Maximum member alignment of a member list (the spec's "maximum
alignment over its members"). -/
def maxAlign (ms : List Member) : Int :=
  ms.foldl (fun acc m => max acc m.ty.align) 0

theorem align_to_eq (n a : Int) : align_to n a = ((n + a - 1).tdiv a) * a := rfl

/-- `align_to n (a*8) / 8` is a multiple of `a`. -/
theorem dvd_align_to_tdiv_eight (n a : Int) : a ∣ (align_to n (a * 8)).tdiv 8 := by
  have h : align_to n (a * 8) = ((n + a * 8 - 1).tdiv (a * 8) * a) * 8 := by
    rw [align_to_eq]; ring
  rw [h, Int.mul_tdiv_cancel _ (by norm_num)]
  exact Dvd.intro _ (mul_comm _ _)

theorem layoutStep_ty (packed : Bool) (bits : Int) (mem : Member) :
    (layoutStep packed bits mem).1.ty = mem.ty := by
  simp only [layoutStep]
  split
  · split <;> rfl
  · rfl

theorem layoutStep_bf (packed : Bool) (bits : Int) (mem : Member) :
    (layoutStep packed bits mem).1.is_bitfield = mem.is_bitfield := by
  simp only [layoutStep]
  split
  · split <;> rfl
  · rfl

theorem layoutStep_offset (bits : Int) (mem : Member) (h : mem.is_bitfield = false) :
    (layoutStep false bits mem).1.offset = (align_to bits (mem.ty.align * 8)).tdiv 8 := by
  simp [layoutStep, h]

theorem struct_layout_ma (packed : Bool) (members : List Member) :
    ∀ bits ma, (struct_layout packed bits ma members).2.2 =
      (struct_layout packed bits ma members).1.foldl (fun acc m => max acc m.ty.align) ma := by
  induction members with
  | nil => intro bits ma; simp [struct_layout]
  | cons mem rest ih =>
    intro bits ma
    by_cases hk : keepMem mem <;>
      simp [struct_layout, hk, ih, layoutStep_ty]

theorem struct_layout_mem_ty (packed : Bool) (members : List Member) :
    ∀ bits ma, ∀ m' ∈ (struct_layout packed bits ma members).1,
      ∃ m ∈ members, m'.ty = m.ty ∧ m'.is_bitfield = m.is_bitfield := by
  induction members with
  | nil => intro bits ma m' h; simp [struct_layout] at h
  | cons mem rest ih =>
    intro bits ma m' h
    by_cases hk : keepMem mem <;>
        simp only [struct_layout, hk, ite_true, ite_false, List.mem_cons] at h
    · rcases h with h | h
      · exact ⟨mem, List.mem_cons_self .., by
          simp [h, layoutStep_ty, layoutStep_bf]⟩
      · obtain ⟨m, hm, he⟩ := ih _ _ m' h
        exact ⟨m, List.mem_cons_of_mem _ hm, he⟩
    · obtain ⟨m, hm, he⟩ := ih _ _ m' h
      exact ⟨m, List.mem_cons_of_mem _ hm, he⟩

/-- Offsets produced for non-bit-field members are multiples of the
member's alignment (non-packed case). -/
theorem struct_layout_offsets (members : List Member) :
    ∀ bits ma, ∀ m' ∈ (struct_layout false bits ma members).1,
      m'.is_bitfield = false → m'.ty.align ∣ m'.offset := by
  induction members with
  | nil => intro bits ma m' h; simp [struct_layout] at h
  | cons mem rest ih =>
    intro bits ma m' h hm'
    by_cases hk : keepMem mem <;>
        simp only [struct_layout, hk, ite_true, ite_false, List.mem_cons] at h
    · rcases h with h | h
      · subst h
        have hbf : mem.is_bitfield = false := by
          rw [← layoutStep_bf false bits mem]; exact hm'
        rw [layoutStep_offset bits mem hbf, layoutStep_ty]
        exact dvd_align_to_tdiv_eight _ _
      · exact ih _ _ m' h hm'
    · exact ih _ _ m' h hm'

theorem le_foldl_max (ms : List Member) :
    ∀ init : Int, init ≤ ms.foldl (fun acc x => max acc x.ty.align) init := by
  induction ms with
  | nil => intro init; simp
  | cons y ys ih =>
    intro init
    simp only [List.foldl_cons]
    exact le_trans (le_max_left _ _) (ih _)

theorem foldl_max_le_of_mem {ms : List Member} {m : Member} (h : m ∈ ms) :
    ∀ init : Int, m.ty.align ≤ ms.foldl (fun acc x => max acc x.ty.align) init := by
  induction ms with
  | nil => cases h
  | cons x rest ih =>
    intro init
    rcases List.mem_cons.1 h with h | h
    · subst h
      simp only [List.foldl_cons]
      exact le_trans (le_max_right _ _) (le_foldl_max _ _)
    · exact ih h _

/-- C6: for a non-packed struct, every non-bit-field member's offset is a
multiple of the member's type alignment; the struct alignment equals the
maximum member alignment (when the resulting member list is non-empty and
member alignments are ≥ 1); and the struct size is a multiple of the
struct alignment. -/
theorem c6_struct_layout (members : List Member)
    (hal : ∀ m ∈ members, 1 ≤ m.ty.align) :
    (∀ m' ∈ (struct_decl false members).1, m'.is_bitfield = false →
        m'.ty.align ∣ m'.offset) ∧
    ((struct_decl false members).1 ≠ [] →
        (struct_decl false members).2.1 = maxAlign (struct_decl false members).1) ∧
    (struct_decl false members).2.1 ∣ (struct_decl false members).2.2 := by
  refine ⟨?_, ?_, ?_⟩
  · intro m' h hm'
    exact struct_layout_offsets members 0 0 m' h hm'
  · intro hne
    obtain ⟨m', hm'⟩ := List.exists_mem_of_ne_nil _ hne
    have hm'' : m' ∈ (struct_layout false 0 0 members).1 := hm'
    have hma := struct_layout_ma false members 0 0
    have h1 : (1 : Int) ≤ (struct_layout false 0 0 members).2.2 := by
      rw [hma]
      obtain ⟨m, hmm, hty, _⟩ := struct_layout_mem_ty false members 0 0 m' hm''
      calc (1 : Int) ≤ m'.ty.align := by rw [hty]; exact hal m hmm
        _ ≤ _ := foldl_max_le_of_mem hm'' 0
    have hz : (struct_layout false 0 0 members).2.2 ≠ 0 := by omega
    show structAlign false (struct_layout false 0 0 members).2.2 =
      maxAlign (struct_layout false 0 0 members).1
    rw [structAlign, if_pos ⟨by simp, hz⟩, maxAlign]
    exact hma
  · show structAlign false (struct_layout false 0 0 members).2.2 ∣
      (align_to (struct_layout false 0 0 members).2.1
        (structAlign false (struct_layout false 0 0 members).2.2 * 8)).tdiv 8
    exact dvd_align_to_tdiv_eight _ _

/-- Witness for C6: `struct { char c; int x; }` lays out at offsets 0 and
4, with alignment 4 and size 8. -/
theorem c6_witness :
    (∀ m ∈ [Member.mk none ty_char false 0 0 0, Member.mk (some "x") ty_int false 0 0 0],
        1 ≤ m.ty.align) ∧
    ((∀ m' ∈ (struct_decl false [Member.mk none ty_char false 0 0 0,
          Member.mk (some "x") ty_int false 0 0 0]).1, m'.is_bitfield = false →
        m'.ty.align ∣ m'.offset) ∧
     ((struct_decl false [Member.mk none ty_char false 0 0 0,
          Member.mk (some "x") ty_int false 0 0 0]).1 ≠ [] →
        (struct_decl false [Member.mk none ty_char false 0 0 0,
          Member.mk (some "x") ty_int false 0 0 0]).2.1 =
        maxAlign (struct_decl false [Member.mk none ty_char false 0 0 0,
          Member.mk (some "x") ty_int false 0 0 0]).1) ∧
     (struct_decl false [Member.mk none ty_char false 0 0 0,
          Member.mk (some "x") ty_int false 0 0 0]).2.1 ∣
        (struct_decl false [Member.mk none ty_char false 0 0 0,
          Member.mk (some "x") ty_int false 0 0 0]).2.2) :=
  ⟨by decide, c6_struct_layout _ (by decide)⟩

/-! ## Preprocessor: macro-argument reading and substitution
(src/preprocess.c)

Tokens are modelled as a list; the terminating `TK_EOF` token of a C token
list corresponds to the end of the list.  The lexer (`tokenize`) is not
part of the core (spec §1 treats it as an external collaborator), so the
two places that re-tokenize text — `paste` and `stringize`/`new_str_token`
— are modelled at token granularity: the single token the re-tokenization
is assumed to produce carries the concatenated/quoted text. -/

/-- Token kinds relevant to substitution.  `pmark` is `TK_PMARK`, the
paste-marker token produced for empty argument substitution. -/
inductive TokKind where
  | ident | punct | num | str | pmark
  deriving DecidableEq, Repr

structure STok where
  kind : TokKind
  text : String
  hasSpace : Bool := false
  atBol : Bool := false
  deriving DecidableEq, Repr

/-- `MacroArg` (src/preprocess.c:27).  `expanded` is the per-argument
cache filled by `expand_arg`; a fresh argument has `none`. -/
structure MacroArg where
  name : String
  is_va_args : Bool := false
  omit_comma : Bool := false
  tok : List STok
  expanded : Option (List STok) := none
  deriving DecidableEq, Repr

/-- `align_token` (src/preprocess.c:564). -/
def align_token (t src : STok) : STok :=
  { t with atBol := src.atBol, hasSpace := src.hasSpace }

/-- The `TK_PMARK` token made by `new_pmark` (src/preprocess.c:123). -/
def pmarkTok : STok := ⟨.pmark, "", false, false⟩

/-- `expand_arg` (src/preprocess.c:456).  The recursive run of the macro
expander over the argument's tokens is the surrounding engine's job; it is
supplied as the parameter `E`, and the cache field is consulted first as
in the C code. -/
def expand_arg (E : List STok → List STok) (arg : MacroArg) : List STok :=
  match arg.expanded with
  | some e => e
  | none => E arg.tok

/-- The escaping of `"` and `\` inside string/number tokens done by
`join_tokens` when `add_slash` is set (src/preprocess.c:519-522). -/
def escapeText (s : String) : String :=
  String.mk (s.data.foldr
    (fun c acc => if c = '\\' ∨ c = '"' then '\\' :: c :: acc else c :: acc) [])

/-- `join_tokens` (src/preprocess.c:512). -/
def join_tokens (add_slash : Bool) (toks : List STok) : String :=
  toks.foldl
    (fun acc t =>
      let sep := if (t.hasSpace || t.atBol) && acc ≠ "" then " " else ""
      let body :=
        if add_slash && (t.kind = .str || t.kind = .num) then escapeText t.text
        else t.text
      acc ++ sep ++ body) ""

/-- `quote_string` (src/preprocess.c:185). -/
def quote_string (s : String) : String := "\"" ++ s ++ "\""

/-- `stringize` (src/preprocess.c:553): `TK_PMARK` tokens are dropped and
the rest joined into one double-quoted string token.  (`new_str_token`
re-tokenizes the quoted text; the lexer being external, the result is
modelled as the string token itself.) -/
def stringize (hash : STok) (toks : List STok) : STok :=
  { kind := .str,
    text := quote_string (join_tokens true (toks.filter (fun t => t.kind ≠ .pmark))),
    hasSpace := hash.hasSpace, atBol := hash.atBol }

/-- `paste` (src/preprocess.c:570): lexically concatenates two tokens and
re-tokenizes.  The lexer being external, the resulting single token is
modelled as carrying the concatenated text (the C code errors out if the
re-tokenization yields more than one token). -/
def paste (lhs rhs : STok) : STok :=
  { kind := lhs.kind, text := lhs.text ++ rhs.text,
    hasSpace := lhs.hasSpace, atBol := lhs.atBol }

/-- The parameter-name lookup loop of `find_arg` (src/preprocess.c:480). -/
def findParamName (args : List MacroArg) (t : STok) : Option MacroArg :=
  args.find? (fun a => t.text = a.name)

/-- The `va` lookup in `find_arg`'s `__VA_OPT__` branch
(src/preprocess.c:493-496); the C loop keeps the last match. -/
def findVaArg (args : List MacroArg) : Option MacroArg :=
  args.reverse.find? (fun a => a.is_va_args)

/-- `read_macro_arg_one` (src/preprocess.c:396): collects one argument's
tokens up to a top-level `)` (or, when `read_rest` is false, a top-level
`,`).  Returns `(argument tokens, rest beginning at the terminator)`;
`none` models the "unterminated list" error on premature end of input. -/
def read_macro_arg_one (read_rest : Bool) : List STok → Nat → Option (List STok × List STok)
  | [], _ => none
  | t :: rest, level =>
    if level = 0 ∧ t.text = ")" then
      some ([], t :: rest)
    else if level = 0 ∧ ¬read_rest ∧ t.text = "," then
      some ([], t :: rest)
    else
      let level' :=
        if t.text = "(" then level + 1
        else if t.text = ")" then level - 1
        else level
      (read_macro_arg_one read_rest rest level').map (fun p => (t :: p.1, p.2))

theorem read_macro_arg_one_length (read_rest : Bool) :
    ∀ (input : List STok) (level : Nat) (c r : List STok),
      read_macro_arg_one read_rest input level = some (c, r) →
      c.length + r.length = input.length ∧ r ≠ [] := by
  intro input
  induction input with
  | nil => intro level c r h; simp [read_macro_arg_one] at h
  | cons t rest ih =>
    intro level c r h
    simp only [read_macro_arg_one] at h
    split at h
    · cases h; simp
    · split at h
      · cases h; simp
      · simp only [Option.map_eq_some'] at h
        obtain ⟨⟨c', r'⟩, hrec, he⟩ := h
        cases he
        have h2 := ih _ c' r' hrec
        refine ⟨?_, h2.2⟩
        simp only [List.length_cons]
        omega

mutual

/-- The replacement-list walk of `subst` (src/preprocess.c:583), carrying
the already-emitted output in reverse in `acc` (the C code appends to
`cur` and sometimes rewrites the last emitted token, for `##`).
`E` is the recursive macro expander used by `expand_arg`.  The mutual
recursion is paced by an explicit `fuel` counter (each call steps it down
once); the C functions terminate because every step consumes input
tokens, so any `fuel` larger than the total input size is enough. -/
def substAux (E : List STok → List STok) (args : List MacroArg) :
    Nat → List STok → List STok → Except String (List STok)
  | 0, _, _ => .error "recursion limit"
  | _ + 1, acc, [] => .ok acc.reverse
  | fuel + 1, acc, tok :: rest =>
    if tok.text = "#" then
      -- src/preprocess.c:591-598
      match findArgAt E args fuel rest with
      | .error e => .error e
      | .ok none => .error "# is not followed by a macro parameter"
      | .ok (some (arg, r)) =>
        substAux E args fuel (align_token (stringize tok arg.tok) tok :: acc) r
    else
      match rest with
      | hh :: rest2 =>
        if tok.text = "," ∧ hh.text = "##" then
          -- src/preprocess.c:603-614
          match findArgAt E args fuel rest2 with
          | .error e => .error e
          | .ok fa =>
            match fa with
            | some (arg, _) =>
              if arg.is_va_args then
                if arg.omit_comma then
                  substAux E args fuel acc (rest2.drop 1)
                else
                  substAux E args fuel (tok :: acc) rest2
              else substAtParam E args fuel acc tok (hh :: rest2)
            | none => substAtParam E args fuel acc tok (hh :: rest2)
        else substAtHashHash E args fuel acc tok (hh :: rest2)
      | [] => substAtHashHash E args fuel acc tok []

/-- The `##` branch of `subst` (src/preprocess.c:616-643) followed by the
parameter/copy branches, for the current token `tok`. -/
def substAtHashHash (E : List STok → List STok) (args : List MacroArg) :
    Nat → List STok → STok → List STok → Except String (List STok)
  | 0, _, _, _ => .error "recursion limit"
  | fuel + 1, acc, tok, rest =>
    if tok.text = "##" then
      match acc with
      | [] => .error "## cannot appear at start of macro expansion"
      | prev :: accTail =>
        match rest with
        | [] => .error "## cannot appear at end of macro expansion"
        | nxt :: rest2 =>
          if prev.kind = .pmark then
            substAux E args fuel (prev :: accTail) (nxt :: rest2)
          else
            match findArgAt E args fuel (nxt :: rest2) with
            | .error e => .error e
            | .ok (some (arg, r)) =>
              match arg.tok with
              | [] => substAux E args fuel (prev :: accTail) r
              | t0 :: ttail =>
                if t0.kind = .pmark then
                  substAux E args fuel (ttail.reverse ++ prev :: accTail) r
                else
                  substAux E args fuel (ttail.reverse ++ paste prev t0 :: accTail) r
            | .ok none =>
              substAux E args fuel (paste prev nxt :: accTail) rest2
    else substAtParam E args fuel acc tok rest

/-- The plain-parameter and copy branches of `subst`
(src/preprocess.c:645-667) for the current token `tok`. -/
def substAtParam (E : List STok → List STok) (args : List MacroArg) :
    Nat → List STok → STok → List STok → Except String (List STok)
  | 0, _, _, _ => .error "recursion limit"
  | fuel + 1, acc, tok, rest =>
    match findArgAt E args fuel (tok :: rest) with
    | .error e => .error e
    | .ok (some (arg, r)) =>
      let t := if r.head?.map (fun x => x.text) = some "##" then arg.tok
               else expand_arg E arg
      match t with
      | [] => substAux E args fuel (pmarkTok :: acc) r
      | t0 :: ttail => substAux E args fuel (ttail.reverse ++ align_token t0 tok :: acc) r
    | .ok none => substAux E args fuel (tok :: acc) rest

/-- `find_arg` (src/preprocess.c:479) at a token position: parameter-name
lookup, then the `__VA_OPT__(...)` pseudo-parameter.  Returns the argument
and the position after the consumed tokens. -/
def findArgAt (E : List STok → List STok) (args : List MacroArg) :
    Nat → List STok → Except String (Option (MacroArg × List STok))
  | 0, _ => .error "recursion limit"
  | _, [] => .ok none
  | fuel + 1, t :: rest =>
    match findParamName args t with
    | some a => .ok (some (a, rest))
    | none =>
      match rest with
      | lp :: rest2 =>
        if t.text = "__VA_OPT__" ∧ lp.text = "(" then
          match read_macro_arg_one true rest2 0 with
          | none => .error "unterminated list"
          | some (content, r) =>
            match r with
            | _ :: r' =>
              match findVaArg args with
              | some v =>
                if expand_arg E v ≠ [] then
                  match substAux E args fuel [] content with
                  | .error e => .error e
                  | .ok inner =>
                    .ok (some ({ name := "", tok := inner, expanded := some inner }, r'))
                else
                  .ok (some ({ name := "", tok := [], expanded := some [] }, r'))
              | none =>
                .ok (some ({ name := "", tok := [], expanded := some [] }, r'))
            | [] => .error "unterminated list"
        else .ok none
      | [] => .ok none

end


/-- `skip` (the token-consuming helper of src/preprocess.c): consume an
expected token or raise the "expected" error. -/
def skipTok (s : String) : List STok → Except String (List STok)
  | t :: r => if t.text = s then .ok r else .error "expected token"
  | [] => .error "expected token"

/-- The fixed-parameter loop of `read_macro_args`
(src/preprocess.c:433-438). -/
def read_fixed_args (first : Bool) (ps : List String) (toks : List STok) :
    Except String (List MacroArg × List STok) :=
  match ps with
  | [] => .ok ([], toks)
  | p :: ps' => do
    let toks1 ← if first then .ok toks else skipTok "," toks
    match read_macro_arg_one false toks1 0 with
    | none => .error "unterminated list"
    | some (c, r) => do
      let (rest_args, toks2) ← read_fixed_args false ps' r
      .ok (({ name := p, tok := c } : MacroArg) :: rest_args, toks2)

/-- The variadic tail of `read_macro_args` (src/preprocess.c:440-450):
`omit_comma` records whether the token at the variadic position (before
any comma skipping) is the closing `)`. -/
def read_va_arg (have_params : Bool) (vaname : String) (toks : List STok) :
    Except String (MacroArg × List STok) :=
  let omitc : Bool := toks.head?.map (fun t => t.text) == some ")"
  do
    let toks' ← if !omitc && have_params then skipTok "," toks else .ok toks
    match read_macro_arg_one true toks' 0 with
    | none => .error "unterminated list"
    | some (c, r) =>
      .ok ({ name := vaname, is_va_args := true, omit_comma := omitc, tok := c }, r)

/-- `read_macro_args` (src/preprocess.c:428): reads an invocation's
arguments, starting from the token after the opening `(`. -/
def read_macro_args (params : List String) (va_name : Option String)
    (toks : List STok) : Except String (List MacroArg) := do
  let (args, toks1) ← read_fixed_args true params toks
  match va_name with
  | some vn => do
    let (va, toks2) ← read_va_arg (params ≠ []) vn toks1
    let _ ← skipTok ")" toks2
    .ok (args ++ [va])
  | none => do
    let _ ← skipTok ")" toks1
    .ok args

theorem findArgAt_name (E : List STok → List STok) (args : List MacroArg)
    (fuel : Nat) (t : STok) (rest : List STok) (a : MacroArg)
    (h : findParamName args t = some a) :
    findArgAt E args (fuel + 1) (t :: rest) = .ok (some (a, rest)) := by
  simp [findArgAt, h]

/-- C3: in a variadic function-like macro invocation, `read_macro_args`
marks the variadic argument with `omit_comma` exactly when the invocation
supplies nothing at the variadic position (the next token is the closing
`)`), and then the variadic raw token list is empty; and in `subst`, a
`, ## __VA_ARGS__` sequence in the replacement list drops the comma when
`omit_comma` is set, while otherwise the comma is kept and the (expanded)
variadic tokens are spliced in after it. -/
theorem c3_comma_paste_vaargs :
    (∀ (hp : Bool) (vn : String) (toks : List STok) (arg : MacroArg) (r : List STok),
        read_va_arg hp vn toks = .ok (arg, r) →
          arg.is_va_args = true ∧
          (arg.omit_comma = true ↔ toks.head?.map (fun t => t.text) = some ")") ∧
          (arg.omit_comma = true → arg.tok = [])) ∧
    (∀ (E : List STok → List STok) (args : List MacroArg) (fuel : Nat)
        (acc rest : List STok) (c hh v : STok) (va : MacroArg),
        c.text = "," → hh.text = "##" →
        findParamName args v = some va → va.is_va_args = true →
        (va.omit_comma = true →
            substAux E args (fuel + 2) acc (c :: hh :: v :: rest)
              = substAux E args (fuel + 1) acc rest) ∧
        (va.omit_comma = false →
            substAux E args (fuel + 2) acc (c :: hh :: v :: rest)
              = substAux E args (fuel + 1) (c :: acc) (v :: rest))) ∧
    (∀ (E : List STok → List STok) (args : List MacroArg) (fuel : Nat)
        (acc rest : List STok) (v t0 : STok) (va : MacroArg) (ttail : List STok),
        findParamName args v = some va →
        v.text ≠ "#" → v.text ≠ "," → v.text ≠ "##" →
        rest.head?.map (fun x => x.text) ≠ some "##" →
        expand_arg E va = t0 :: ttail →
        substAux E args (fuel + 4) acc (v :: rest)
          = substAux E args (fuel + 1)
              (ttail.reverse ++ align_token t0 v :: acc) rest) := by
  refine ⟨?_, ?_, ?_⟩
  · intro hp vn toks arg r h
    unfold read_va_arg at h
    simp only [bind, Except.bind] at h
    cases toks with
    | nil =>
      cases hp <;> simp [skipTok, read_macro_arg_one] at h
    | cons t ts =>
      by_cases hcl : t.text = ")"
      · simp [read_macro_arg_one, hcl] at h
        obtain ⟨ha, -⟩ := h
        subst ha
        simp [hcl]
      · rw [show (Option.map (fun t => t.text) ((t :: ts).head?) == some ")") = false
            from by simp [hcl]] at h
        simp only [Bool.not_false, Bool.true_and] at h
        cases hp with
        | false =>
          simp only [Bool.and_false, Bool.false_eq_true, if_neg, ite_false,
            not_false_iff] at h
          cases hro : read_macro_arg_one true (t :: ts) 0 with
          | none => rw [hro] at h; simp at h
          | some p =>
            obtain ⟨c, rr⟩ := p
            rw [hro] at h
            simp only [Except.ok.injEq, Prod.mk.injEq] at h
            obtain ⟨ha, -⟩ := h
            subst ha
            simp [hcl]
        | true =>
          simp only [Bool.and_true, ite_true, if_pos] at h
          cases hsk : skipTok "," (t :: ts) with
          | error e => rw [hsk] at h; simp at h
          | ok toks1 =>
            rw [hsk] at h
            simp only [Except.bind] at h
            cases hro : read_macro_arg_one true toks1 0 with
            | none => rw [hro] at h; simp at h
            | some p =>
              obtain ⟨c, rr⟩ := p
              rw [hro] at h
              simp only [Except.ok.injEq, Prod.mk.injEq] at h
              obtain ⟨ha, -⟩ := h
              subst ha
              simp [hcl]
  · intro E args fuel acc rest c hh v va hc hhh hv hva
    have h9 : ¬(("," : String) = "#") := by decide
    have hfa := findArgAt_name E args fuel v rest va hv
    constructor
    · intro homit
      simp only [substAux, hc, hhh, h9, if_false, ite_false, if_true, ite_true,
        and_self, hfa, hva, homit, List.drop_succ_cons, List.drop_zero]
    · intro homit
      simp only [substAux, hc, hhh, h9, if_false, ite_false, if_true, ite_true,
        and_self, hfa, hva, homit, Bool.false_eq_true]
  · intro E args fuel acc rest v t0 va ttail hv hv1 hv2 hv3 hrest hexp
    cases rest with
    | nil =>
      have hfa := findArgAt_name E args fuel v [] va hv
      simp only [substAux, substAtHashHash, substAtParam, hv1, hv3, if_false,
        ite_false, if_true, ite_true, hfa, hexp]
      simp [hexp]
    | cons hh rest2 =>
      have hfa := findArgAt_name E args fuel v (hh :: rest2) va hv
      have hh2 : hh.text ≠ "##" := by
        intro he; apply hrest; simp [he]
      have hcond : ¬(v.text = "," ∧ hh.text = "##") := fun hand => hv2 hand.1
      simp only [substAux, substAtHashHash, substAtParam, hv1, hv3, hcond,
        if_false, ite_false, if_true, ite_true, hfa]
      simp [hexp, hh2]

/-- Witness for C3: expanding `, ## __VA_ARGS__` with an omitted variadic
argument drops the comma, leaving an empty expansion. -/
theorem c3_witness :
    substAux (fun l => l) [⟨"__VA_ARGS__", true, true, [], none⟩] 2 []
        [⟨.punct, ",", false, false⟩, ⟨.punct, "##", false, false⟩,
         ⟨.ident, "__VA_ARGS__", false, false⟩]
      = Except.ok [] := by
  have h := ((c3_comma_paste_vaargs.2.1) (fun l => l)
      [⟨"__VA_ARGS__", true, true, [], none⟩] 0 [] []
      ⟨.punct, ",", false, false⟩ ⟨.punct, "##", false, false⟩
      ⟨.ident, "__VA_ARGS__", false, false⟩
      ⟨"__VA_ARGS__", true, true, [], none⟩ rfl rfl (by decide) rfl).1 rfl
  simpa [substAux] using h

/-! ## AST (src/widcc.h `Node`)

The C `Node` is one struct with a kind tag and nullable children; spec §9
describes it as a tagged variant, and it is embedded here as a sum type
with one constructor per `ND_*` kind, carrying exactly the children and
payload fields the embedded functions consult.  Statement bodies
(`node->body`, a linked list through `next`) are the mutual `NodeSeq`. -/

/-- The fields of `Obj` consulted by `eval2` and the code generator for a
variable reference. -/
structure ObjRef where
  name : String
  is_local : Bool := false
  is_tls : Bool := false
  is_definition : Bool := false
  ofs : Int := 0
  ty : Ty
  deriving DecidableEq, Repr

mutual

inductive Node where
  | null_expr
  | num (ty : Ty) (val : Int)
  | pos (ty : Ty) (lhs : Node)
  | neg (ty : Ty) (lhs : Node)
  | var (ty : Ty) (v : ObjRef)
  | member (ty : Ty) (lhs : Node) (mem : Member)
  | deref (ty : Ty) (lhs : Node)
  | addr (ty : Ty) (lhs : Node)
  | assign (ty : Ty) (lhs rhs : Node)
  | stmt_expr (ty : Ty) (body : NodeSeq)
  | chain (ty : Ty) (lhs rhs : Node)
  | comma (ty : Ty) (lhs rhs : Node)
  | cast (ty : Ty) (lhs : Node)
  | memzero (v : ObjRef)
  | cond (ty : Ty) (cnd then_ els : Node)
  | not (ty : Ty) (lhs : Node)
  | bitnot (ty : Ty) (lhs : Node)
  | logand (ty : Ty) (lhs rhs : Node)
  | logor (ty : Ty) (lhs rhs : Node)
  | funcall (ty : Ty) (lhs : Node) (args_expr : Option Node) (ret_buffer : Option ObjRef)
  | label_val (ty : Ty) (unique_label : String)
  | alloca (ty : Ty) (lhs : Node) (v : Option ObjRef)
  | va_start (lhs : Node)
  | va_copy (lhs rhs : Node)
  | va_arg (ty : Ty) (lhs : Node) (v : ObjRef)
  | add (ty : Ty) (lhs rhs : Node)
  | sub (ty : Ty) (lhs rhs : Node)
  | mul (ty : Ty) (lhs rhs : Node)
  | div (ty : Ty) (lhs rhs : Node)
  | mod (ty : Ty) (lhs rhs : Node)
  | bitand (ty : Ty) (lhs rhs : Node)
  | bitor (ty : Ty) (lhs rhs : Node)
  | bitxor (ty : Ty) (lhs rhs : Node)
  | shl (ty : Ty) (lhs rhs : Node)
  | shr (ty : Ty) (lhs rhs : Node)
  | sar (ty : Ty) (lhs rhs : Node)
  | eq (ty : Ty) (lhs rhs : Node)
  | ne (ty : Ty) (lhs rhs : Node)
  | lt (ty : Ty) (lhs rhs : Node)
  | le (ty : Ty) (lhs rhs : Node)
  | gt (ty : Ty) (lhs rhs : Node)
  | ge (ty : Ty) (lhs rhs : Node)
  | if_ (cnd then_ : Node) (els : Option Node)
  | for_ (ini cnd : Option Node) (then_ : Node) (inc : Option Node)
  | do_ (then_ cnd : Node)
  | switch (cnd : Node) (then_ : Node)
  | case_ (lhs : Option Node)
  | block (body : NodeSeq)
  | goto_
  | goto_expr (lhs : Node)
  | label (lhs : Option Node)
  | return_ (lhs : Option Node)
  | expr_stmt (lhs : Node)
  | asm_

/-- `Node.next`-linked statement lists. -/
inductive NodeSeq where
  | nil
  | cons (n : Node) (rest : NodeSeq)

end

/-- `node->ty` for the constructors that carry a result type (statement
nodes have no meaningful type; `ty_void` stands for their null type). -/
def Node.ty : Node → Ty
  | .num ty _ | .pos ty _ | .neg ty _ | .var ty _ | .member ty _ _
  | .deref ty _ | .addr ty _ | .assign ty _ _ | .stmt_expr ty _
  | .chain ty _ _ | .comma ty _ _ | .cast ty _ | .cond ty _ _ _
  | .not ty _ | .bitnot ty _ | .logand ty _ _ | .logor ty _ _
  | .funcall ty _ _ _ | .label_val ty _ | .alloca ty _ _ | .va_arg ty _ _
  | .add ty _ _ | .sub ty _ _ | .mul ty _ _ | .div ty _ _ | .mod ty _ _
  | .bitand ty _ _ | .bitor ty _ _ | .bitxor ty _ _
  | .shl ty _ _ | .shr ty _ _ | .sar ty _ _
  | .eq ty _ _ | .ne ty _ _ | .lt ty _ _ | .le ty _ _
  | .gt ty _ _ | .ge ty _ _ => ty
  | _ => ty_void

mutual

/-- `is_bitfield2` (src/type.c:78): probes whether a node is (through
assignments, sequencing and statement expressions) a bit-field access,
yielding the bit width.  The C `ND_STMT_EXPR` case walks `node->body` to
the last statement (done here by the mutual `is_bitfield2_last`); when
that statement is not an expression statement, the C code would fall
through and dereference the null `node->member`, which cannot arise for
the integer-typed operands this is called on (such a statement expression
has type `void`) and is modelled as "not a bit-field". -/
def is_bitfield2 : Node → Option Int
  | .assign _ lhs _ => is_bitfield2 lhs
  | .chain _ _ rhs => is_bitfield2 rhs
  | .comma _ _ rhs => is_bitfield2 rhs
  | .stmt_expr _ body => is_bitfield2_last body
  | .member _ _ mem => if mem.is_bitfield then some mem.bit_width else none
  | _ => none

/-- The walk `while (stmt->next) stmt = stmt->next;` plus the
`ND_EXPR_STMT` check of src/type.c:85-90. -/
def is_bitfield2_last : NodeSeq → Option Int
  | .nil => none
  | .cons n .nil =>
    match n with
    | .expr_stmt lhs => is_bitfield2 lhs
    | _ => none
  | .cons _ (.cons m rest) => is_bitfield2_last (.cons m rest)

end

/-- C7: a bit-field operand of width equal to the bit width of `int`
whose declared type is unsigned promotes to `unsigned int`; any other
bit-field of width at most the bit width of `int` promotes to `int`;
wider bit-fields keep their declared type.  (`int_promotion` dispatches
on `is_bitfield2`; the declared type is the node's type.) -/
theorem c7_bitfield_promotion (n : Node) (w : Int)
    (h : is_bitfield2 n = some w) :
    (w = ty_int.size * 8 → n.ty.is_unsigned = true →
        int_promotion (is_bitfield2 n) n.ty = some ty_uint) ∧
    (¬(w = ty_int.size * 8 ∧ n.ty.is_unsigned = true) → w ≤ ty_int.size * 8 →
        int_promotion (is_bitfield2 n) n.ty = some ty_int) ∧
    (ty_int.size * 8 < w →
        int_promotion (is_bitfield2 n) n.ty = some n.ty) := by
  rw [h]
  refine ⟨?_, ?_, ?_⟩
  · intro hw hu
    simp [int_promotion, hw, hu]
  · intro hnot hle
    have : ¬(w = ty_int.size * 8 ∧ n.ty.is_unsigned = true) := hnot
    simp only [int_promotion]
    rw [if_neg, if_pos hle]
    simp only [Bool.and_eq_true, decide_eq_true_eq, not_and]
    intro hw
    rcases Decidable.em (n.ty.is_unsigned = true) with hu | hu
    · exact absurd ⟨hw, hu⟩ hnot
    · simpa using hu
  · intro hgt
    simp only [int_promotion]
    rw [if_neg, if_neg (by omega)]
    simp only [Bool.and_eq_true, decide_eq_true_eq, not_and]
    intro hw
    omega

/-- Witness for C7: an `unsigned int` bit-field of width 32 promotes to
`unsigned int`. -/
theorem c7_witness :
    int_promotion
        (is_bitfield2 (Node.member ty_uint Node.null_expr
          { name := some "b", ty := ty_uint, is_bitfield := true, bit_width := 32 }))
        (Node.member ty_uint Node.null_expr
          { name := some "b", ty := ty_uint, is_bitfield := true, bit_width := 32 }).ty
      = some ty_uint :=
  (c7_bitfield_promotion
      (Node.member ty_uint Node.null_expr
        { name := some "b", ty := ty_uint, is_bitfield := true, bit_width := 32 })
      32 (by decide)).1 (by decide) (by decide)

/-! ## Integer constant-expression evaluation (src/parse.c `eval2`)

C `int64_t` values are modelled as `Int` with explicit two's-complement
wrapping.  Where the C code overflows signed arithmetic (undefined by the
C standard), the behaviour modelled is the wrap-around the x86-64 host
exhibits, which is what the spec describes ("wrapping arithmetic").
`eval_double`, the `long double` evaluator, is outside the integer
claims; it is abstracted as the parameter `D` giving the mathematical
value of a floating subtree, and float-to-integer conversions truncate
toward zero. -/

/-- Reinterpret an integer as a signed 64-bit two's-complement value. -/
def wrap64 (n : Int) : Int := (n + 2 ^ 63) % 2 ^ 64 - 2 ^ 63

/-- `(uint64_t)` view of an `int64_t` value. -/
def toU64 (n : Int) : Nat := (n % 2 ^ 64).toNat

/-- `(uint32_t)` conversion, zero-extended back to `int64_t`. -/
def toU32 (n : Int) : Int := n % 2 ^ 32

/-- `(uint16_t)` conversion, zero-extended back to `int64_t`. -/
def toU16 (n : Int) : Int := n % 2 ^ 16

/-- `(uint8_t)` conversion, zero-extended back to `int64_t`. -/
def toU8 (n : Int) : Int := n % 2 ^ 8

/-- `(int32_t)` conversion, sign-extended back to `int64_t`. -/
def sext32 (n : Int) : Int := (n + 2 ^ 31) % 2 ^ 32 - 2 ^ 31

/-- `(int16_t)` conversion, sign-extended back to `int64_t`. -/
def sext16 (n : Int) : Int := (n + 2 ^ 15) % 2 ^ 16 - 2 ^ 15

/-- `(int8_t)` conversion, sign-extended back to `int64_t`. -/
def sext8 (n : Int) : Int := (n + 2 ^ 7) % 2 ^ 8 - 2 ^ 7

/-- C conversion of a floating value to an integer type: truncation
toward zero. -/
def ratToInt (q : Rat) : Int := q.num.tdiv q.den

/-- `INT64_MIN`. -/
def int64Min : Int := -(2 ^ 63)

/-- The mutable evaluation context of `eval2`: the `*eval_recover` failed
flag (src/parse.c:2021) and the `char ***label` out-parameter of the
`&global + n` initializer form. -/
structure EvalSt where
  failed : Bool := false
  label : Option String := none
  deriving DecidableEq, Repr

/-- `eval_error` (src/parse.c:2021): with `eval_recover` set it records
the failure and yields 0 so evaluation continues; otherwise the process
exits with the diagnostic (modelled as `Except.error`). -/
def eval_error (recov : Bool) (msg : String) (st : EvalSt) :
    Except String (Int × EvalSt) :=
  if recov then .ok (0, { st with failed := true }) else .error msg

/-- `eval2` (src/parse.c:2043) restricted as in the source: `recov`
mirrors whether `eval_recover` is set, `lm` whether the `label`
out-parameter was passed (`eval` = `eval2` with a null label,
src/parse.c:2033).  `D` abstracts `eval_double`. -/
def eval2 (D : Node → Rat) (recov : Bool) : Bool → Node → EvalSt → Except String (Int × EvalSt)
  | lm, .add _ lhs rhs, st => do
    let (v1, st) ← eval2 D recov lm lhs st
    let (v2, st) ← eval2 D recov false rhs st
    .ok (wrap64 (v1 + v2), st)
  | lm, .sub _ lhs rhs, st => do
    let (v1, st) ← eval2 D recov lm lhs st
    let (v2, st) ← eval2 D recov false rhs st
    .ok (wrap64 (v1 - v2), st)
  | _, .mul _ lhs rhs, st => do
    let (v1, st) ← eval2 D recov false lhs st
    let (v2, st) ← eval2 D recov false rhs st
    .ok (wrap64 (v1 * v2), st)
  | _, .div ty lhs rhs, st => do
    let (lval, st) ← eval2 D recov false lhs st
    let (rval, st) ← eval2 D recov false rhs st
    if rval = 0 then
      eval_error recov "division by zero during constant evaluation" st
    else if ty.is_unsigned then
      .ok (wrap64 (Int.ofNat (toU64 lval / toU64 rval)), st)
    else if lval = int64Min ∧ rval = -1 then
      .ok (int64Min, st)
    else
      .ok (lval.tdiv rval, st)
  | _, .pos _ lhs, st => eval2 D recov false lhs st
  | _, .neg ty lhs, st => do
    let (v, st) ← eval2 D recov false lhs st
    if ty.size = 4 then
      if ty.is_unsigned then .ok (toU32 (-v), st)
      else .ok (sext32 (-v), st)
    else
      .ok (wrap64 (-v), st)
  | _, .mod ty lhs rhs, st => do
    let (lval, st) ← eval2 D recov false lhs st
    let (rval, st) ← eval2 D recov false rhs st
    if rval = 0 then
      eval_error recov "remainder by zero during constant evaluation" st
    else if ty.is_unsigned then
      .ok (wrap64 (Int.ofNat (toU64 lval % toU64 rval)), st)
    else if lval = int64Min ∧ rval = -1 then
      .ok (0, st)
    else
      .ok (lval.tmod rval, st)
  | _, .bitand _ lhs rhs, st => do
    let (v1, st) ← eval2 D recov false lhs st
    let (v2, st) ← eval2 D recov false rhs st
    .ok (wrap64 (Int.ofNat (Nat.land (toU64 v1) (toU64 v2))), st)
  | _, .bitor _ lhs rhs, st => do
    let (v1, st) ← eval2 D recov false lhs st
    let (v2, st) ← eval2 D recov false rhs st
    .ok (wrap64 (Int.ofNat (Nat.lor (toU64 v1) (toU64 v2))), st)
  | _, .bitxor _ lhs rhs, st => do
    let (v1, st) ← eval2 D recov false lhs st
    let (v2, st) ← eval2 D recov false rhs st
    .ok (wrap64 (Int.ofNat (Nat.xor (toU64 v1) (toU64 v2))), st)
  | _, .shl ty lhs rhs, st => do
    let (v1, st) ← eval2 D recov false lhs st
    let (v2, st) ← eval2 D recov false rhs st
    if ty.size = 4 then
      if ty.is_unsigned then .ok (toU32 (v1 * 2 ^ v2.toNat), st)
      else .ok (sext32 (v1 * 2 ^ v2.toNat), st)
    else
      .ok (wrap64 (v1 * 2 ^ v2.toNat), st)
  | _, .shr ty lhs rhs, st => do
    let (v1, st) ← eval2 D recov false lhs st
    let (v2, st) ← eval2 D recov false rhs st
    if ty.size = 4 then
      .ok (toU32 v1 / 2 ^ v2.toNat, st)
    else
      .ok (wrap64 (Int.ofNat (toU64 v1 / 2 ^ v2.toNat)), st)
  | _, .sar ty lhs rhs, st => do
    let (v1, st) ← eval2 D recov false lhs st
    let (v2, st) ← eval2 D recov false rhs st
    if ty.size = 4 then
      .ok (Int.fdiv (sext32 v1) (2 ^ v2.toNat), st)
    else
      .ok (Int.fdiv v1 (2 ^ v2.toNat), st)
  | _, .eq _ lhs rhs, st =>
    if is_flonum lhs.ty then
      .ok (if D lhs = D rhs then 1 else 0, st)
    else do
      let (v1, st) ← eval2 D recov false lhs st
      let (v2, st) ← eval2 D recov false rhs st
      .ok (if v1 = v2 then 1 else 0, st)
  | _, .ne _ lhs rhs, st =>
    if is_flonum lhs.ty then
      .ok (if D lhs ≠ D rhs then 1 else 0, st)
    else do
      let (v1, st) ← eval2 D recov false lhs st
      let (v2, st) ← eval2 D recov false rhs st
      .ok (if v1 ≠ v2 then 1 else 0, st)
  | _, .lt _ lhs rhs, st =>
    if is_flonum lhs.ty then
      .ok (if D lhs < D rhs then 1 else 0, st)
    else do
      let (v1, st) ← eval2 D recov false lhs st
      let (v2, st) ← eval2 D recov false rhs st
      if lhs.ty.is_unsigned then
        .ok (if toU64 v1 < toU64 v2 then 1 else 0, st)
      else
        .ok (if v1 < v2 then 1 else 0, st)
  | _, .le _ lhs rhs, st =>
    if is_flonum lhs.ty then
      .ok (if D lhs ≤ D rhs then 1 else 0, st)
    else do
      let (v1, st) ← eval2 D recov false lhs st
      let (v2, st) ← eval2 D recov false rhs st
      if lhs.ty.is_unsigned then
        .ok (if toU64 v1 ≤ toU64 v2 then 1 else 0, st)
      else
        .ok (if v1 ≤ v2 then 1 else 0, st)
  | _, .gt _ lhs rhs, st =>
    if is_flonum lhs.ty then
      .ok (if D lhs > D rhs then 1 else 0, st)
    else do
      let (v1, st) ← eval2 D recov false lhs st
      let (v2, st) ← eval2 D recov false rhs st
      if lhs.ty.is_unsigned then
        .ok (if toU64 v1 > toU64 v2 then 1 else 0, st)
      else
        .ok (if v1 > v2 then 1 else 0, st)
  | _, .ge _ lhs rhs, st =>
    if is_flonum lhs.ty then
      .ok (if D lhs ≥ D rhs then 1 else 0, st)
    else do
      let (v1, st) ← eval2 D recov false lhs st
      let (v2, st) ← eval2 D recov false rhs st
      if lhs.ty.is_unsigned then
        .ok (if toU64 v1 ≥ toU64 v2 then 1 else 0, st)
      else
        .ok (if v1 ≥ v2 then 1 else 0, st)
  | lm, .cond _ c t e, st => do
    let (vc, st) ← eval2 D recov false c st
    if vc ≠ 0 then eval2 D recov lm t st else eval2 D recov lm e st
  | lm, .chain _ lhs rhs, st => do
    let (_, st) ← eval2 D recov lm lhs st
    eval2 D recov lm rhs st
  | lm, .comma _ lhs rhs, st => do
    let (_, st) ← eval2 D recov lm lhs st
    eval2 D recov lm rhs st
  | _, .not _ lhs, st => do
    let (v, st) ← eval2 D recov false lhs st
    .ok (if v = 0 then 1 else 0, st)
  | _, .bitnot ty lhs, st => do
    let (v, st) ← eval2 D recov false lhs st
    if ty.size = 4 then
      if ty.is_unsigned then .ok (toU32 (-v - 1), st)
      else .ok (sext32 (-v - 1), st)
    else
      .ok (-v - 1, st)
  | _, .logand _ lhs rhs, st => do
    let (v1, st) ← eval2 D recov false lhs st
    if v1 = 0 then .ok (0, st)
    else do
      let (v2, st) ← eval2 D recov false rhs st
      .ok (if v2 ≠ 0 then 1 else 0, st)
  | _, .logor _ lhs rhs, st => do
    let (v1, st) ← eval2 D recov false lhs st
    if v1 ≠ 0 then .ok (1, st)
    else do
      let (v2, st) ← eval2 D recov false rhs st
      .ok (if v2 ≠ 0 then 1 else 0, st)
  | lm, .cast ty lhs, st =>
    if ty.kind = .bool then
      if (match lhs with
          | .var vty _ => vty.kind = .array || vty.kind = .vla
          | _ => false : Bool) then
        .ok (1, st)
      else if is_flonum lhs.ty then
        .ok (if D lhs ≠ 0 then 1 else 0, st)
      else do
        let (v, st) ← eval2 D recov lm lhs st
        .ok (if v ≠ 0 then 1 else 0, st)
    else if is_flonum lhs.ty then
      if ty.size = 8 ∧ ty.is_unsigned then
        .ok (wrap64 (ratToInt (D lhs)), st)
      else
        .ok (ratToInt (D lhs), st)
    else do
      let (v, st) ← eval2 D recov lm lhs st
      if is_integer ty then
        match ty.size with
        | 1 => .ok (if ty.is_unsigned then toU8 v else sext8 v, st)
        | 2 => .ok (if ty.is_unsigned then toU16 v else sext16 v, st)
        | 4 => .ok (if ty.is_unsigned then toU32 v else sext32 v, st)
        | _ => .ok (v, st)
      else
        .ok (v, st)
  | _, .num _ val, st => .ok (val, st)
  | lm, .addr _ lhs, st =>
    if lm then eval2 D recov lm lhs st
    else eval_error recov "not a compile-time constant" st
  | lm, .deref _ lhs, st =>
    if lm then eval2 D recov lm lhs st
    else eval_error recov "not a compile-time constant" st
  | lm, .member _ lhs mem, st =>
    if lm then do
      let (v, st) ← eval2 D recov lm lhs st
      .ok (wrap64 (v + mem.offset), st)
    else eval_error recov "not a compile-time constant" st
  | lm, .label_val _ l, st =>
    if lm then .ok (0, { st with label := some l })
    else eval_error recov "not a compile-time constant" st
  | lm, .var _ v, st =>
    if lm then
      if v.is_local then eval_error recov "not a compile-time constant" st
      else .ok (0, { st with label := some v.name })
    else eval_error recov "not a compile-time constant" st
  | lm, _, st =>
    if lm then eval_error recov "invalid initializer" st
    else eval_error recov "not a compile-time constant" st

/-- `eval` (src/parse.c:2033). -/
def evalN (D : Node → Rat) (recov : Bool) (n : Node) (st : EvalSt) :
    Except String (Int × EvalSt) :=
  eval2 D recov false n st

mutual

/-- Well-formedness of an AST for integer evaluation: every `ND_NUM`
literal carries an `int64_t` value (the lexer, which produces the
values, is outside the embedded core). -/
def litsOK : Node → Bool
  | .null_expr | .goto_ | .asm_ => true
  | .num _ v => decide (int64Min ≤ v ∧ v < 2 ^ 63)
  | .pos _ l | .neg _ l | .deref _ l | .addr _ l | .cast _ l
  | .not _ l | .bitnot _ l => litsOK l
  | .var _ _ | .label_val _ _ | .memzero _ => true
  | .member _ l _ => litsOK l
  | .assign _ l r | .chain _ l r | .comma _ l r
  | .logand _ l r | .logor _ l r
  | .add _ l r | .sub _ l r | .mul _ l r | .div _ l r | .mod _ l r
  | .bitand _ l r | .bitor _ l r | .bitxor _ l r
  | .shl _ l r | .shr _ l r | .sar _ l r
  | .eq _ l r | .ne _ l r | .lt _ l r | .le _ l r
  | .gt _ l r | .ge _ l r => litsOK l && litsOK r
  | .stmt_expr _ body => litsOKSeq body
  | .cond _ c t e => litsOK c && litsOK t && litsOK e
  | .funcall _ l a _ =>
    litsOK l && (match a with | some x => litsOK x | none => true)
  | .alloca _ l _ => litsOK l
  | .va_start l => litsOK l
  | .va_copy l r => litsOK l && litsOK r
  | .va_arg _ l _ => litsOK l
  | .if_ c t e =>
    litsOK c && litsOK t && (match e with | some x => litsOK x | none => true)
  | .for_ i c t inc =>
    (match i with | some x => litsOK x | none => true) &&
    (match c with | some x => litsOK x | none => true) &&
    litsOK t &&
    (match inc with | some x => litsOK x | none => true)
  | .do_ t c => litsOK t && litsOK c
  | .switch c t => litsOK c && litsOK t
  | .case_ l => match l with | some x => litsOK x | none => true
  | .block body => litsOKSeq body
  | .goto_expr l => litsOK l
  | .label l => match l with | some x => litsOK x | none => true
  | .return_ l => match l with | some x => litsOK x | none => true
  | .expr_stmt l => litsOK l

def litsOKSeq : NodeSeq → Bool
  | .nil => true
  | .cons n rest => litsOK n && litsOKSeq rest

end

theorem wrap64_range (n : Int) : int64Min ≤ wrap64 n ∧ wrap64 n < 2 ^ 63 := by
  unfold wrap64 int64Min
  omega

theorem toU32_range (n : Int) : 0 ≤ toU32 n ∧ toU32 n < 2 ^ 32 := by
  unfold toU32; omega

theorem toU16_range (n : Int) : 0 ≤ toU16 n ∧ toU16 n < 2 ^ 16 := by
  unfold toU16; omega

theorem toU8_range (n : Int) : 0 ≤ toU8 n ∧ toU8 n < 2 ^ 8 := by
  unfold toU8; omega

theorem sext32_range (n : Int) : -(2 ^ 31) ≤ sext32 n ∧ sext32 n < 2 ^ 31 := by
  unfold sext32; omega

theorem sext16_range (n : Int) : -(2 ^ 15) ≤ sext16 n ∧ sext16 n < 2 ^ 15 := by
  unfold sext16; omega

theorem sext8_range (n : Int) : -(2 ^ 7) ≤ sext8 n ∧ sext8 n < 2 ^ 7 := by
  unfold sext8; omega

theorem toU64_lt (n : Int) : toU64 n < 2 ^ 64 := by
  unfold toU64
  omega

theorem eval_error_ok {recov : Bool} {msg : String} {st : EvalSt} {v : Int}
    {st' : EvalSt} (h : eval_error recov msg st = .ok (v, st')) : v = 0 := by
  unfold eval_error at h
  split at h
  · cases h; rfl
  · cases h

theorem exBind_ok {e : Except String (Int × EvalSt)}
    {f : Int × EvalSt → Except String (Int × EvalSt)} {v : Int} {st' : EvalSt}
    (h : e >>= f = .ok (v, st')) : ∃ p, e = .ok p ∧ f p = .ok (v, st') := by
  cases e with
  | error a => exact absurd h (by simp [Bind.bind, Except.bind])
  | ok p => exact ⟨p, rfl, by simpa [Bind.bind, Except.bind] using h⟩

/-- `int64_t` truncated division stays in `int64_t` range away from the
`INT64_MIN / -1` case. -/
theorem tdiv_range {a b : Int} (hb : b ≠ 0) (hnot : ¬(a = int64Min ∧ b = -1))
    (ha1 : int64Min ≤ a) (ha2 : a < 2 ^ 63) :
    int64Min ≤ a.tdiv b ∧ a.tdiv b < 2 ^ 63 := by
  have habs : (a.tdiv b).natAbs = a.natAbs / b.natAbs := Int.natAbs_tdiv a b
  have ha : a.natAbs ≤ 2 ^ 63 := by unfold int64Min at ha1; omega
  have hble : (a.tdiv b).natAbs ≤ 2 ^ 63 :=
    le_trans (habs ▸ Nat.div_le_self _ _) ha
  refine ⟨by unfold int64Min; omega, ?_⟩
  by_contra hge
  push_neg at hge
  have heq : a.tdiv b = 2 ^ 63 := by omega
  have h63 : (a.tdiv b).natAbs = 2 ^ 63 := by omega
  rw [habs] at h63
  have hb2 : b.natAbs = 1 := by
    by_contra hb1
    have hb2' : 2 ≤ b.natAbs := by omega
    have hle1 : a.natAbs / b.natAbs ≤ a.natAbs / 2 :=
      Nat.div_le_div_left hb2' (by omega)
    have hle2 : a.natAbs / 2 ≤ 2 ^ 63 / 2 := Nat.div_le_div_right ha
    omega
  have ha63 : a.natAbs = 2 ^ 63 := by rw [hb2, Nat.div_one] at h63; exact h63
  rcases Int.natAbs_eq_iff.mp hb2 with hbv | hbv
  · rw [show ((1 : Nat) : Int) = 1 from rfl] at hbv
    rw [hbv, Int.tdiv_one] at heq
    omega
  · have hbm : b = -1 := by exact_mod_cast hbv
    have haMin : a = int64Min := by unfold int64Min at *; omega
    exact hnot ⟨haMin, hbm⟩

theorem tmod_neg_arg (a b : Int) : (-a).tmod b = -(a.tmod b) := by
  rw [Int.tmod_def, Int.tmod_def, Int.neg_tdiv]; ring

/-- `int64_t` truncated remainder stays in `int64_t` range when the
divisor does. -/
theorem tmod_range {a b : Int} (hb : b ≠ 0) (hb1 : int64Min ≤ b)
    (hb2 : b < 2 ^ 63) : int64Min ≤ a.tmod b ∧ a.tmod b < 2 ^ 63 := by
  have key : ∀ (x y : Int), 0 < y → -y < x.tmod y ∧ x.tmod y < y := by
    intro x y hy
    refine ⟨?_, Int.tmod_lt_of_pos x hy⟩
    have h := Int.tmod_lt_of_pos (-x) hy
    rw [tmod_neg_arg] at h
    omega
  rcases lt_trichotomy b 0 with h | h | h
  · have hk := key a (-b) (by omega)
    rw [Int.tmod_neg] at hk
    unfold int64Min at *
    omega
  · exact absurd h hb
  · have hk := key a b h
    unfold int64Min at *
    omega

theorem range_of_zero : int64Min ≤ (0 : Int) ∧ (0 : Int) < 2 ^ 63 := by
  unfold int64Min; omega

theorem range_of_one : int64Min ≤ (1 : Int) ∧ (1 : Int) < 2 ^ 63 := by
  unfold int64Min; omega

theorem range_of_01 (c : Prop) [Decidable c] :
    int64Min ≤ (if c then (1 : Int) else 0) ∧
      (if c then (1 : Int) else 0) < 2 ^ 63 := by
  unfold int64Min; split <;> omega

theorem range_of_toU32 (x : Int) : int64Min ≤ toU32 x ∧ toU32 x < 2 ^ 63 := by
  unfold int64Min toU32; omega

theorem range_of_toU16 (x : Int) : int64Min ≤ toU16 x ∧ toU16 x < 2 ^ 63 := by
  unfold int64Min toU16; omega

theorem range_of_toU8 (x : Int) : int64Min ≤ toU8 x ∧ toU8 x < 2 ^ 63 := by
  unfold int64Min toU8; omega

theorem range_of_sext32 (x : Int) : int64Min ≤ sext32 x ∧ sext32 x < 2 ^ 63 := by
  unfold int64Min sext32; omega

theorem range_of_sext16 (x : Int) : int64Min ≤ sext16 x ∧ sext16 x < 2 ^ 63 := by
  unfold int64Min sext16; omega

theorem range_of_sext8 (x : Int) : int64Min ≤ sext8 x ∧ sext8 x < 2 ^ 63 := by
  unfold int64Min sext8; omega

/-- Euclidean division by a positive divisor preserves the `int64_t`
range. -/
theorem ediv_range {a b : Int} (hb : 0 < b) (h1 : int64Min ≤ a)
    (h2 : a < 2 ^ 63) : int64Min ≤ a / b ∧ a / b < 2 ^ 63 := by
  constructor
  · rw [Int.le_ediv_iff_mul_le hb]
    unfold int64Min at h1 ⊢
    omega
  · rcases le_or_lt 0 a with hp | hn
    · have h := Int.ediv_le_self b hp
      linarith
    · have hlt : a / b < 1 := by
        rw [Int.ediv_lt_iff_lt_mul hb]
        omega
      linarith

/-- Flooring division by a power of two (C arithmetic right shift)
preserves the `int64_t` range. -/
theorem fdiv_pow_range {a : Int} (k : Nat) (h1 : int64Min ≤ a)
    (h2 : a < 2 ^ 63) :
    int64Min ≤ a.fdiv (2 ^ k) ∧ a.fdiv (2 ^ k) < 2 ^ 63 := by
  rw [Int.fdiv_eq_ediv a (by positivity)]
  exact ediv_range (by positivity) h1 h2

theorem eval2_u_num (D : Node → Rat) (recov lm : Bool) (t : Ty) (val : Int)
    (st : EvalSt) : eval2 D recov lm (.num t val) st = .ok (val, st) := rfl

theorem eval2_u_add (D : Node → Rat) (recov lm : Bool) (t : Ty) (l r : Node)
    (st : EvalSt) :
    eval2 D recov lm (.add t l r) st = (do
      let (v1, st) ← eval2 D recov lm l st
      let (v2, st) ← eval2 D recov false r st
      .ok (wrap64 (v1 + v2), st)) := rfl

theorem eval2_u_sub (D : Node → Rat) (recov lm : Bool) (t : Ty) (l r : Node)
    (st : EvalSt) :
    eval2 D recov lm (.sub t l r) st = (do
      let (v1, st) ← eval2 D recov lm l st
      let (v2, st) ← eval2 D recov false r st
      .ok (wrap64 (v1 - v2), st)) := rfl

theorem eval2_u_mul (D : Node → Rat) (recov lm : Bool) (t : Ty) (l r : Node)
    (st : EvalSt) :
    eval2 D recov lm (.mul t l r) st = (do
      let (v1, st) ← eval2 D recov false l st
      let (v2, st) ← eval2 D recov false r st
      .ok (wrap64 (v1 * v2), st)) := rfl

theorem eval2_u_div (D : Node → Rat) (recov lm : Bool) (t : Ty) (l r : Node)
    (st : EvalSt) :
    eval2 D recov lm (.div t l r) st = (do
      let (lval, st) ← eval2 D recov false l st
      let (rval, st) ← eval2 D recov false r st
      if rval = 0 then
        eval_error recov "division by zero during constant evaluation" st
      else if t.is_unsigned then
        .ok (wrap64 (Int.ofNat (toU64 lval / toU64 rval)), st)
      else if lval = int64Min ∧ rval = -1 then
        .ok (int64Min, st)
      else
        .ok (lval.tdiv rval, st)) := rfl

theorem eval2_u_mod (D : Node → Rat) (recov lm : Bool) (t : Ty) (l r : Node)
    (st : EvalSt) :
    eval2 D recov lm (.mod t l r) st = (do
      let (lval, st) ← eval2 D recov false l st
      let (rval, st) ← eval2 D recov false r st
      if rval = 0 then
        eval_error recov "remainder by zero during constant evaluation" st
      else if t.is_unsigned then
        .ok (wrap64 (Int.ofNat (toU64 lval % toU64 rval)), st)
      else if lval = int64Min ∧ rval = -1 then
        .ok (0, st)
      else
        .ok (lval.tmod rval, st)) := rfl

theorem eval2_u_pos (D : Node → Rat) (recov lm : Bool) (t : Ty) (l : Node)
    (st : EvalSt) :
    eval2 D recov lm (.pos t l) st = eval2 D recov false l st := rfl

theorem eval2_u_neg (D : Node → Rat) (recov lm : Bool) (t : Ty) (l : Node)
    (st : EvalSt) :
    eval2 D recov lm (.neg t l) st = (do
      let (v, st) ← eval2 D recov false l st
      if t.size = 4 then
        if t.is_unsigned then .ok (toU32 (-v), st)
        else .ok (sext32 (-v), st)
      else
        .ok (wrap64 (-v), st)) := rfl

theorem eval2_u_bitand (D : Node → Rat) (recov lm : Bool) (t : Ty) (l r : Node)
    (st : EvalSt) :
    eval2 D recov lm (.bitand t l r) st = (do
      let (v1, st) ← eval2 D recov false l st
      let (v2, st) ← eval2 D recov false r st
      .ok (wrap64 (Int.ofNat (Nat.land (toU64 v1) (toU64 v2))), st)) := rfl

theorem eval2_u_bitor (D : Node → Rat) (recov lm : Bool) (t : Ty) (l r : Node)
    (st : EvalSt) :
    eval2 D recov lm (.bitor t l r) st = (do
      let (v1, st) ← eval2 D recov false l st
      let (v2, st) ← eval2 D recov false r st
      .ok (wrap64 (Int.ofNat (Nat.lor (toU64 v1) (toU64 v2))), st)) := rfl

theorem eval2_u_bitxor (D : Node → Rat) (recov lm : Bool) (t : Ty) (l r : Node)
    (st : EvalSt) :
    eval2 D recov lm (.bitxor t l r) st = (do
      let (v1, st) ← eval2 D recov false l st
      let (v2, st) ← eval2 D recov false r st
      .ok (wrap64 (Int.ofNat (Nat.xor (toU64 v1) (toU64 v2))), st)) := rfl

theorem eval2_u_shl (D : Node → Rat) (recov lm : Bool) (t : Ty) (l r : Node)
    (st : EvalSt) :
    eval2 D recov lm (.shl t l r) st = (do
      let (v1, st) ← eval2 D recov false l st
      let (v2, st) ← eval2 D recov false r st
      if t.size = 4 then
        if t.is_unsigned then .ok (toU32 (v1 * 2 ^ v2.toNat), st)
        else .ok (sext32 (v1 * 2 ^ v2.toNat), st)
      else
        .ok (wrap64 (v1 * 2 ^ v2.toNat), st)) := rfl

theorem eval2_u_shr (D : Node → Rat) (recov lm : Bool) (t : Ty) (l r : Node)
    (st : EvalSt) :
    eval2 D recov lm (.shr t l r) st = (do
      let (v1, st) ← eval2 D recov false l st
      let (v2, st) ← eval2 D recov false r st
      if t.size = 4 then
        .ok (toU32 v1 / 2 ^ v2.toNat, st)
      else
        .ok (wrap64 (Int.ofNat (toU64 v1 / 2 ^ v2.toNat)), st)) := rfl

theorem eval2_u_sar (D : Node → Rat) (recov lm : Bool) (t : Ty) (l r : Node)
    (st : EvalSt) :
    eval2 D recov lm (.sar t l r) st = (do
      let (v1, st) ← eval2 D recov false l st
      let (v2, st) ← eval2 D recov false r st
      if t.size = 4 then
        .ok (Int.fdiv (sext32 v1) (2 ^ v2.toNat), st)
      else
        .ok (Int.fdiv v1 (2 ^ v2.toNat), st)) := rfl

theorem eval2_u_eq (D : Node → Rat) (recov lm : Bool) (t : Ty) (l r : Node)
    (st : EvalSt) :
    eval2 D recov lm (.eq t l r) st =
      (if is_flonum l.ty then
        .ok (if D l = D r then 1 else 0, st)
      else do
        let (v1, st) ← eval2 D recov false l st
        let (v2, st) ← eval2 D recov false r st
        .ok (if v1 = v2 then 1 else 0, st)) := rfl

theorem eval2_u_ne (D : Node → Rat) (recov lm : Bool) (t : Ty) (l r : Node)
    (st : EvalSt) :
    eval2 D recov lm (.ne t l r) st =
      (if is_flonum l.ty then
        .ok (if D l ≠ D r then 1 else 0, st)
      else do
        let (v1, st) ← eval2 D recov false l st
        let (v2, st) ← eval2 D recov false r st
        .ok (if v1 ≠ v2 then 1 else 0, st)) := rfl

theorem eval2_u_lt (D : Node → Rat) (recov lm : Bool) (t : Ty) (l r : Node)
    (st : EvalSt) :
    eval2 D recov lm (.lt t l r) st =
      (if is_flonum l.ty then
        .ok (if D l < D r then 1 else 0, st)
      else do
        let (v1, st) ← eval2 D recov false l st
        let (v2, st) ← eval2 D recov false r st
        if l.ty.is_unsigned then
          .ok (if toU64 v1 < toU64 v2 then 1 else 0, st)
        else
          .ok (if v1 < v2 then 1 else 0, st)) := rfl

theorem eval2_u_le (D : Node → Rat) (recov lm : Bool) (t : Ty) (l r : Node)
    (st : EvalSt) :
    eval2 D recov lm (.le t l r) st =
      (if is_flonum l.ty then
        .ok (if D l ≤ D r then 1 else 0, st)
      else do
        let (v1, st) ← eval2 D recov false l st
        let (v2, st) ← eval2 D recov false r st
        if l.ty.is_unsigned then
          .ok (if toU64 v1 ≤ toU64 v2 then 1 else 0, st)
        else
          .ok (if v1 ≤ v2 then 1 else 0, st)) := rfl

theorem eval2_u_gt (D : Node → Rat) (recov lm : Bool) (t : Ty) (l r : Node)
    (st : EvalSt) :
    eval2 D recov lm (.gt t l r) st =
      (if is_flonum l.ty then
        .ok (if D l > D r then 1 else 0, st)
      else do
        let (v1, st) ← eval2 D recov false l st
        let (v2, st) ← eval2 D recov false r st
        if l.ty.is_unsigned then
          .ok (if toU64 v1 > toU64 v2 then 1 else 0, st)
        else
          .ok (if v1 > v2 then 1 else 0, st)) := rfl

theorem eval2_u_ge (D : Node → Rat) (recov lm : Bool) (t : Ty) (l r : Node)
    (st : EvalSt) :
    eval2 D recov lm (.ge t l r) st =
      (if is_flonum l.ty then
        .ok (if D l ≥ D r then 1 else 0, st)
      else do
        let (v1, st) ← eval2 D recov false l st
        let (v2, st) ← eval2 D recov false r st
        if l.ty.is_unsigned then
          .ok (if toU64 v1 ≥ toU64 v2 then 1 else 0, st)
        else
          .ok (if v1 ≥ v2 then 1 else 0, st)) := rfl

theorem eval2_u_cond (D : Node → Rat) (recov lm : Bool) (t : Ty)
    (c tt e : Node) (st : EvalSt) :
    eval2 D recov lm (.cond t c tt e) st = (do
      let (vc, st) ← eval2 D recov false c st
      if vc ≠ 0 then eval2 D recov lm tt st else eval2 D recov lm e st) := rfl

theorem eval2_u_chain (D : Node → Rat) (recov lm : Bool) (t : Ty) (l r : Node)
    (st : EvalSt) :
    eval2 D recov lm (.chain t l r) st = (do
      let (_, st) ← eval2 D recov lm l st
      eval2 D recov lm r st) := rfl

theorem eval2_u_comma (D : Node → Rat) (recov lm : Bool) (t : Ty) (l r : Node)
    (st : EvalSt) :
    eval2 D recov lm (.comma t l r) st = (do
      let (_, st) ← eval2 D recov lm l st
      eval2 D recov lm r st) := rfl

theorem eval2_u_not (D : Node → Rat) (recov lm : Bool) (t : Ty) (l : Node)
    (st : EvalSt) :
    eval2 D recov lm (.not t l) st = (do
      let (v, st) ← eval2 D recov false l st
      .ok (if v = 0 then 1 else 0, st)) := rfl

theorem eval2_u_bitnot (D : Node → Rat) (recov lm : Bool) (t : Ty) (l : Node)
    (st : EvalSt) :
    eval2 D recov lm (.bitnot t l) st = (do
      let (v, st) ← eval2 D recov false l st
      if t.size = 4 then
        if t.is_unsigned then .ok (toU32 (-v - 1), st)
        else .ok (sext32 (-v - 1), st)
      else
        .ok (-v - 1, st)) := rfl

theorem eval2_u_logand (D : Node → Rat) (recov lm : Bool) (t : Ty) (l r : Node)
    (st : EvalSt) :
    eval2 D recov lm (.logand t l r) st = (do
      let (v1, st) ← eval2 D recov false l st
      if v1 = 0 then .ok (0, st)
      else do
        let (v2, st) ← eval2 D recov false r st
        .ok (if v2 ≠ 0 then 1 else 0, st)) := rfl

theorem eval2_u_logor (D : Node → Rat) (recov lm : Bool) (t : Ty) (l r : Node)
    (st : EvalSt) :
    eval2 D recov lm (.logor t l r) st = (do
      let (v1, st) ← eval2 D recov false l st
      if v1 ≠ 0 then .ok (1, st)
      else do
        let (v2, st) ← eval2 D recov false r st
        .ok (if v2 ≠ 0 then 1 else 0, st)) := rfl

theorem eval2_u_cast (D : Node → Rat) (recov lm : Bool) (t : Ty) (l : Node)
    (st : EvalSt) :
    eval2 D recov lm (.cast t l) st =
      (if t.kind = .bool then
        if (match l with
            | .var vty _ => vty.kind = .array || vty.kind = .vla
            | _ => false : Bool) then
          .ok (1, st)
        else if is_flonum l.ty then
          .ok (if D l ≠ 0 then 1 else 0, st)
        else do
          let (v, st) ← eval2 D recov lm l st
          .ok (if v ≠ 0 then 1 else 0, st)
      else if is_flonum l.ty then
        if t.size = 8 ∧ t.is_unsigned then
          .ok (wrap64 (ratToInt (D l)), st)
        else
          .ok (ratToInt (D l), st)
      else do
        let (v, st) ← eval2 D recov lm l st
        if is_integer t then
          match t.size with
          | 1 => .ok (if t.is_unsigned then toU8 v else sext8 v, st)
          | 2 => .ok (if t.is_unsigned then toU16 v else sext16 v, st)
          | 4 => .ok (if t.is_unsigned then toU32 v else sext32 v, st)
          | _ => .ok (v, st)
        else
          .ok (v, st)) := rfl

theorem eval2_u_addr (D : Node → Rat) (recov lm : Bool) (t : Ty) (l : Node)
    (st : EvalSt) :
    eval2 D recov lm (.addr t l) st =
      (if lm then eval2 D recov lm l st
       else eval_error recov "not a compile-time constant" st) := rfl

theorem eval2_u_deref (D : Node → Rat) (recov lm : Bool) (t : Ty) (l : Node)
    (st : EvalSt) :
    eval2 D recov lm (.deref t l) st =
      (if lm then eval2 D recov lm l st
       else eval_error recov "not a compile-time constant" st) := rfl

theorem eval2_u_member (D : Node → Rat) (recov lm : Bool) (t : Ty) (l : Node)
    (mem : Member) (st : EvalSt) :
    eval2 D recov lm (.member t l mem) st =
      (if lm then do
        let (v, st) ← eval2 D recov lm l st
        .ok (wrap64 (v + mem.offset), st)
      else eval_error recov "not a compile-time constant" st) := rfl

theorem eval2_u_label_val (D : Node → Rat) (recov lm : Bool) (t : Ty)
    (s : String) (st : EvalSt) :
    eval2 D recov lm (.label_val t s) st =
      (if lm then .ok (0, { st with label := some s })
       else eval_error recov "not a compile-time constant" st) := rfl

theorem eval2_u_var (D : Node → Rat) (recov lm : Bool) (t : Ty) (ob : ObjRef)
    (st : EvalSt) :
    eval2 D recov lm (.var t ob) st =
      (if lm then
        if ob.is_local then eval_error recov "not a compile-time constant" st
        else .ok (0, { st with label := some ob.name })
      else eval_error recov "not a compile-time constant" st) := rfl

/-- All remaining node kinds make `eval2` report an error: with
`eval_recover` set the result is the recovery value 0. -/
theorem range_of_other {D : Node → Rat} {recov lm : Bool} {n : Node}
    {st st' : EvalSt} {v : Int}
    (heq : eval2 D recov lm n st = .ok (v, st'))
    (hred : eval2 D recov lm n st =
      (if lm then eval_error recov "invalid initializer" st
       else eval_error recov "not a compile-time constant" st)) :
    int64Min ≤ v ∧ v < 2 ^ 63 := by
  rw [hred] at heq
  have h0 : v = 0 := by
    split at heq
    · exact eval_error_ok heq
    · exact eval_error_ok heq
  subst h0
  exact range_of_zero

set_option maxHeartbeats 3200000 in
/-- The central arithmetic invariant of `eval2` (src/parse.c:2043): on an
AST whose literals are `int64_t` values, and assuming every
float-to-integer conversion performed by a cast is in `int64_t` range
(out-of-range conversions are undefined behaviour in the C source),
every value `eval2` returns lies in `[INT64_MIN, INT64_MAX]` — all
arithmetic is reduced modulo 2^64. -/
theorem eval2_range (D : Node → Rat)
    (hD : ∀ m : Node, int64Min ≤ ratToInt (D m) ∧ ratToInt (D m) < 2 ^ 63)
    (recov : Bool) :
    ∀ n : Node, litsOK n = true → ∀ (lm : Bool) (st st' : EvalSt) (v : Int),
      eval2 D recov lm n st = .ok (v, st') → int64Min ≤ v ∧ v < 2 ^ 63
  | .num _ val => by
    intro hok lm st st' v heq
    rw [eval2_u_num] at heq
    simp only [Except.ok.injEq, Prod.mk.injEq] at heq
    obtain ⟨rfl, rfl⟩ := heq
    simpa [litsOK] using hok
  | .add _ l r | .sub _ l r | .mul _ l r
  | .bitand _ l r | .bitor _ l r | .bitxor _ l r => by
    intro _hok lm st st' v heq
    first
    | rw [eval2_u_add] at heq
    | rw [eval2_u_sub] at heq
    | rw [eval2_u_mul] at heq
    | rw [eval2_u_bitand] at heq
    | rw [eval2_u_bitor] at heq
    | rw [eval2_u_bitxor] at heq
    obtain ⟨⟨v1, st1⟩, h1, heq⟩ := exBind_ok heq
    obtain ⟨⟨v2, st2⟩, h2, heq⟩ := exBind_ok heq
    simp only [Except.ok.injEq, Prod.mk.injEq] at heq
    obtain ⟨rfl, rfl⟩ := heq
    exact wrap64_range _
  | .pos _ l => by
    intro hok lm st st' v heq
    simp only [litsOK] at hok
    rw [eval2_u_pos] at heq
    exact eval2_range D hD recov l hok false st st' v heq
  | .neg _ l => by
    intro _hok lm st st' v heq
    rw [eval2_u_neg] at heq
    obtain ⟨⟨v1, st1⟩, h1, heq⟩ := exBind_ok heq
    simp only [] at heq
    split at heq
    · split at heq <;>
        (simp only [Except.ok.injEq, Prod.mk.injEq] at heq;
         obtain ⟨rfl, rfl⟩ := heq)
      · exact range_of_toU32 _
      · exact range_of_sext32 _
    · simp only [Except.ok.injEq, Prod.mk.injEq] at heq
      obtain ⟨rfl, rfl⟩ := heq
      exact wrap64_range _
  | .div _ l r => by
    intro hok lm st st' v heq
    simp only [litsOK, Bool.and_eq_true] at hok
    rw [eval2_u_div] at heq
    obtain ⟨⟨lval, st1⟩, h1, heq⟩ := exBind_ok heq
    obtain ⟨⟨rval, st2⟩, h2, heq⟩ := exBind_ok heq
    simp only [] at heq
    by_cases hz : rval = 0
    · rw [if_pos hz] at heq
      have h0 := eval_error_ok heq
      subst h0
      exact range_of_zero
    · rw [if_neg hz] at heq
      split at heq
      · simp only [Except.ok.injEq, Prod.mk.injEq] at heq
        obtain ⟨rfl, rfl⟩ := heq
        exact wrap64_range _
      · by_cases hm : lval = int64Min ∧ rval = -1
        · rw [if_pos hm] at heq
          simp only [Except.ok.injEq, Prod.mk.injEq] at heq
          obtain ⟨rfl, rfl⟩ := heq
          unfold int64Min
          omega
        · rw [if_neg hm] at heq
          simp only [Except.ok.injEq, Prod.mk.injEq] at heq
          obtain ⟨rfl, rfl⟩ := heq
          have hl := eval2_range D hD recov l hok.1 false st st1 lval h1
          exact tdiv_range hz hm hl.1 hl.2
  | .mod _ l r => by
    intro hok lm st st' v heq
    simp only [litsOK, Bool.and_eq_true] at hok
    rw [eval2_u_mod] at heq
    obtain ⟨⟨lval, st1⟩, h1, heq⟩ := exBind_ok heq
    obtain ⟨⟨rval, st2⟩, h2, heq⟩ := exBind_ok heq
    simp only [] at heq
    by_cases hz : rval = 0
    · rw [if_pos hz] at heq
      have h0 := eval_error_ok heq
      subst h0
      exact range_of_zero
    · rw [if_neg hz] at heq
      split at heq
      · simp only [Except.ok.injEq, Prod.mk.injEq] at heq
        obtain ⟨rfl, rfl⟩ := heq
        exact wrap64_range _
      · by_cases hm : lval = int64Min ∧ rval = -1
        · rw [if_pos hm] at heq
          simp only [Except.ok.injEq, Prod.mk.injEq] at heq
          obtain ⟨rfl, rfl⟩ := heq
          exact range_of_zero
        · rw [if_neg hm] at heq
          simp only [Except.ok.injEq, Prod.mk.injEq] at heq
          obtain ⟨rfl, rfl⟩ := heq
          have hr := eval2_range D hD recov r hok.2 false st1 st2 rval h2
          exact tmod_range hz hr.1 hr.2
  | .shl _ l r => by
    intro _hok lm st st' v heq
    rw [eval2_u_shl] at heq
    obtain ⟨⟨v1, st1⟩, h1, heq⟩ := exBind_ok heq
    obtain ⟨⟨v2, st2⟩, h2, heq⟩ := exBind_ok heq
    simp only [] at heq
    split at heq
    · split at heq <;>
        (simp only [Except.ok.injEq, Prod.mk.injEq] at heq;
         obtain ⟨rfl, rfl⟩ := heq)
      · exact range_of_toU32 _
      · exact range_of_sext32 _
    · simp only [Except.ok.injEq, Prod.mk.injEq] at heq
      obtain ⟨rfl, rfl⟩ := heq
      exact wrap64_range _
  | .shr _ l r => by
    intro _hok lm st st' v heq
    rw [eval2_u_shr] at heq
    obtain ⟨⟨v1, st1⟩, h1, heq⟩ := exBind_ok heq
    obtain ⟨⟨v2, st2⟩, h2, heq⟩ := exBind_ok heq
    simp only [] at heq
    split at heq
    · simp only [Except.ok.injEq, Prod.mk.injEq] at heq
      obtain ⟨rfl, rfl⟩ := heq
      have ht := range_of_toU32 v1
      exact ediv_range (by positivity) ht.1 ht.2
    · simp only [Except.ok.injEq, Prod.mk.injEq] at heq
      obtain ⟨rfl, rfl⟩ := heq
      exact wrap64_range _
  | .sar _ l r => by
    intro hok lm st st' v heq
    simp only [litsOK, Bool.and_eq_true] at hok
    rw [eval2_u_sar] at heq
    obtain ⟨⟨v1, st1⟩, h1, heq⟩ := exBind_ok heq
    obtain ⟨⟨v2, st2⟩, h2, heq⟩ := exBind_ok heq
    simp only [] at heq
    split at heq
    · simp only [Except.ok.injEq, Prod.mk.injEq] at heq
      obtain ⟨rfl, rfl⟩ := heq
      have ht := range_of_sext32 v1
      exact fdiv_pow_range _ ht.1 ht.2
    · simp only [Except.ok.injEq, Prod.mk.injEq] at heq
      obtain ⟨rfl, rfl⟩ := heq
      have hl := eval2_range D hD recov l hok.1 false st st1 v1 h1
      exact fdiv_pow_range _ hl.1 hl.2
  | .eq _ l r | .ne _ l r => by
    intro _hok lm st st' v heq
    first
    | rw [eval2_u_eq] at heq
    | rw [eval2_u_ne] at heq
    by_cases hf : is_flonum (Node.ty l) = true
    · rw [if_pos hf] at heq
      simp only [Except.ok.injEq, Prod.mk.injEq] at heq
      obtain ⟨rfl, rfl⟩ := heq
      exact range_of_01 _
    · rw [if_neg hf] at heq
      obtain ⟨⟨v1, st1⟩, h1, heq⟩ := exBind_ok heq
      obtain ⟨⟨v2, st2⟩, h2, heq⟩ := exBind_ok heq
      simp only [Except.ok.injEq, Prod.mk.injEq] at heq
      obtain ⟨rfl, rfl⟩ := heq
      exact range_of_01 _
  | .lt _ l r | .le _ l r | .gt _ l r | .ge _ l r => by
    intro _hok lm st st' v heq
    first
    | rw [eval2_u_lt] at heq
    | rw [eval2_u_le] at heq
    | rw [eval2_u_gt] at heq
    | rw [eval2_u_ge] at heq
    by_cases hf : is_flonum (Node.ty l) = true
    · rw [if_pos hf] at heq
      simp only [Except.ok.injEq, Prod.mk.injEq] at heq
      obtain ⟨rfl, rfl⟩ := heq
      exact range_of_01 _
    · rw [if_neg hf] at heq
      obtain ⟨⟨v1, st1⟩, h1, heq⟩ := exBind_ok heq
      obtain ⟨⟨v2, st2⟩, h2, heq⟩ := exBind_ok heq
      simp only [] at heq
      split at heq <;>
        (simp only [Except.ok.injEq, Prod.mk.injEq] at heq;
         obtain ⟨rfl, rfl⟩ := heq;
         exact range_of_01 _)
  | .cond _ c t e => by
    intro hok lm st st' v heq
    simp only [litsOK, Bool.and_eq_true] at hok
    rw [eval2_u_cond] at heq
    obtain ⟨⟨vc, st1⟩, h1, heq⟩ := exBind_ok heq
    simp only [] at heq
    split at heq
    · exact eval2_range D hD recov t hok.1.2 lm st1 st' v heq
    · exact eval2_range D hD recov e hok.2 lm st1 st' v heq
  | .chain _ l r | .comma _ l r => by
    intro hok lm st st' v heq
    simp only [litsOK, Bool.and_eq_true] at hok
    first
    | rw [eval2_u_chain] at heq
    | rw [eval2_u_comma] at heq
    obtain ⟨⟨v1, st1⟩, h1, heq⟩ := exBind_ok heq
    simp only [] at heq
    exact eval2_range D hD recov r hok.2 lm st1 st' v heq
  | .not _ l => by
    intro _hok lm st st' v heq
    rw [eval2_u_not] at heq
    obtain ⟨⟨v1, st1⟩, h1, heq⟩ := exBind_ok heq
    simp only [Except.ok.injEq, Prod.mk.injEq] at heq
    obtain ⟨rfl, rfl⟩ := heq
    exact range_of_01 _
  | .bitnot _ l => by
    intro hok lm st st' v heq
    simp only [litsOK] at hok
    rw [eval2_u_bitnot] at heq
    obtain ⟨⟨v1, st1⟩, h1, heq⟩ := exBind_ok heq
    simp only [] at heq
    split at heq
    · split at heq <;>
        (simp only [Except.ok.injEq, Prod.mk.injEq] at heq;
         obtain ⟨rfl, rfl⟩ := heq)
      · exact range_of_toU32 _
      · exact range_of_sext32 _
    · simp only [Except.ok.injEq, Prod.mk.injEq] at heq
      obtain ⟨rfl, rfl⟩ := heq
      have hl := eval2_range D hD recov l hok false st st1 v1 h1
      unfold int64Min at *
      omega
  | .logand _ l r => by
    intro _hok lm st st' v heq
    rw [eval2_u_logand] at heq
    obtain ⟨⟨v1, st1⟩, h1, heq⟩ := exBind_ok heq
    simp only [] at heq
    split at heq
    · simp only [Except.ok.injEq, Prod.mk.injEq] at heq
      obtain ⟨rfl, rfl⟩ := heq
      exact range_of_zero
    · obtain ⟨⟨v2, st2⟩, h2, heq⟩ := exBind_ok heq
      simp only [Except.ok.injEq, Prod.mk.injEq] at heq
      obtain ⟨rfl, rfl⟩ := heq
      exact range_of_01 _
  | .logor _ l r => by
    intro _hok lm st st' v heq
    rw [eval2_u_logor] at heq
    obtain ⟨⟨v1, st1⟩, h1, heq⟩ := exBind_ok heq
    simp only [] at heq
    split at heq
    · simp only [Except.ok.injEq, Prod.mk.injEq] at heq
      obtain ⟨rfl, rfl⟩ := heq
      exact range_of_one
    · obtain ⟨⟨v2, st2⟩, h2, heq⟩ := exBind_ok heq
      simp only [Except.ok.injEq, Prod.mk.injEq] at heq
      obtain ⟨rfl, rfl⟩ := heq
      exact range_of_01 _
  | .cast ty l => by
    intro hok lm st st' v heq
    simp only [litsOK] at hok
    rw [eval2_u_cast] at heq
    by_cases hb : ty.kind = TyKind.bool
    · rw [if_pos hb] at heq
      split at heq
      · simp only [Except.ok.injEq, Prod.mk.injEq] at heq
        obtain ⟨rfl, rfl⟩ := heq
        exact range_of_one
      · split at heq
        · simp only [Except.ok.injEq, Prod.mk.injEq] at heq
          obtain ⟨rfl, rfl⟩ := heq
          exact range_of_01 _
        · obtain ⟨⟨w, st1⟩, h1, heq⟩ := exBind_ok heq
          simp only [Except.ok.injEq, Prod.mk.injEq] at heq
          obtain ⟨rfl, rfl⟩ := heq
          exact range_of_01 _
    · rw [if_neg hb] at heq
      by_cases hf : is_flonum (Node.ty l) = true
      · rw [if_pos hf] at heq
        split at heq
        · simp only [Except.ok.injEq, Prod.mk.injEq] at heq
          obtain ⟨rfl, rfl⟩ := heq
          exact wrap64_range _
        · simp only [Except.ok.injEq, Prod.mk.injEq] at heq
          obtain ⟨rfl, rfl⟩ := heq
          exact hD l
      · rw [if_neg hf] at heq
        obtain ⟨⟨w, st1⟩, h1, heq⟩ := exBind_ok heq
        simp only [] at heq
        split at heq
        · split at heq
          · split at heq <;>
              (simp only [Except.ok.injEq, Prod.mk.injEq] at heq;
               obtain ⟨rfl, rfl⟩ := heq)
            · exact range_of_toU8 _
            · exact range_of_sext8 _
          · split at heq <;>
              (simp only [Except.ok.injEq, Prod.mk.injEq] at heq;
               obtain ⟨rfl, rfl⟩ := heq)
            · exact range_of_toU16 _
            · exact range_of_sext16 _
          · split at heq <;>
              (simp only [Except.ok.injEq, Prod.mk.injEq] at heq;
               obtain ⟨rfl, rfl⟩ := heq)
            · exact range_of_toU32 _
            · exact range_of_sext32 _
          · simp only [Except.ok.injEq, Prod.mk.injEq] at heq
            obtain ⟨rfl, rfl⟩ := heq
            exact eval2_range D hD recov l hok lm st st1 w h1
        · simp only [Except.ok.injEq, Prod.mk.injEq] at heq
          obtain ⟨rfl, rfl⟩ := heq
          exact eval2_range D hD recov l hok lm st st1 w h1
  | .addr _ l | .deref _ l => by
    intro hok lm st st' v heq
    simp only [litsOK] at hok
    first
    | rw [eval2_u_addr] at heq
    | rw [eval2_u_deref] at heq
    split at heq
    · exact eval2_range D hD recov l hok lm st st' v heq
    · have h0 := eval_error_ok heq
      subst h0
      exact range_of_zero
  | .member _ l _ => by
    intro _hok lm st st' v heq
    rw [eval2_u_member] at heq
    split at heq
    · obtain ⟨⟨w, st1⟩, h1, heq⟩ := exBind_ok heq
      simp only [Except.ok.injEq, Prod.mk.injEq] at heq
      obtain ⟨rfl, rfl⟩ := heq
      exact wrap64_range _
    · have h0 := eval_error_ok heq
      subst h0
      exact range_of_zero
  | .label_val _ _ => by
    intro _hok lm st st' v heq
    rw [eval2_u_label_val] at heq
    split at heq
    · simp only [Except.ok.injEq, Prod.mk.injEq] at heq
      obtain ⟨rfl, rfl⟩ := heq
      exact range_of_zero
    · have h0 := eval_error_ok heq
      subst h0
      exact range_of_zero
  | .var _ ob => by
    intro _hok lm st st' v heq
    rw [eval2_u_var] at heq
    split at heq
    · split at heq
      · have h0 := eval_error_ok heq
        subst h0
        exact range_of_zero
      · simp only [Except.ok.injEq, Prod.mk.injEq] at heq
        obtain ⟨rfl, rfl⟩ := heq
        exact range_of_zero
    · have h0 := eval_error_ok heq
      subst h0
      exact range_of_zero
  | .null_expr | .assign _ _ _ | .stmt_expr _ _ | .memzero _
  | .funcall _ _ _ _ | .alloca _ _ _ | .va_start _ | .va_copy _ _
  | .va_arg _ _ _ | .if_ _ _ _ | .for_ _ _ _ _ | .do_ _ _ | .switch _ _
  | .case_ _ | .block _ | .goto_ | .goto_expr _ | .label _ | .return_ _
  | .expr_stmt _ | .asm_ =>
    fun _hok lm st st' v heq => range_of_other heq rfl

/-- C8 (amended): the integer constant-expression evaluator `eval2`
(src/parse.c:2043) computes in 64-bit two's-complement wrapping
arithmetic — binary `+` keeps its full 64-bit wrapped result even on a
32-bit result type, while unary minus on a 4-byte signed type truncates
to 32 bits; a division or remainder whose divisor evaluates to 0
raises the diagnostic (`eval_error`); `INT64_MIN / -1` yields
`INT64_MIN` and `INT64_MIN % -1` yields 0 without trapping; and every
value produced on a well-formed AST lies in the `int64_t` range. -/
theorem c8_eval2_arithmetic (D : Node → Rat) (recov : Bool) (t : Ty)
    (l r : Node) (st st1 st2 : EvalSt) (lval rval : Int)
    (hl : eval2 D recov false l st = .ok (lval, st1))
    (hr : eval2 D recov false r st1 = .ok (rval, st2))
    (hsigned : t.is_unsigned = false) :
    (eval2 D recov false (.add t l r) st = .ok (wrap64 (lval + rval), st2)) ∧
    (t.size = 4 →
      eval2 D recov false (.neg t l) st = .ok (sext32 (-lval), st1)) ∧
    (rval = 0 →
      eval2 D recov false (.div t l r) st =
        eval_error recov "division by zero during constant evaluation" st2 ∧
      eval2 D recov false (.mod t l r) st =
        eval_error recov "remainder by zero during constant evaluation" st2) ∧
    (lval = int64Min → rval = -1 →
      eval2 D recov false (.div t l r) st = .ok (int64Min, st2) ∧
      eval2 D recov false (.mod t l r) st = .ok (0, st2)) ∧
    (∀ (n : Node) (lm : Bool) (s s' : EvalSt) (v : Int),
      (∀ m : Node, int64Min ≤ ratToInt (D m) ∧ ratToInt (D m) < 2 ^ 63) →
      litsOK n = true → eval2 D recov lm n s = .ok (v, s') →
      int64Min ≤ v ∧ v < 2 ^ 63) := by
  refine ⟨?_, ?_, ?_, ?_, ?_⟩
  · rw [eval2_u_add, hl]
    simp only [bind, Except.bind]
    rw [hr]
  · intro h4
    rw [eval2_u_neg, hl]
    simp only [bind, Except.bind]
    simp [h4, hsigned]
  · intro hz
    constructor
    · rw [eval2_u_div, hl]
      simp only [bind, Except.bind]
      rw [hr]
      simp [hz]
    · rw [eval2_u_mod, hl]
      simp only [bind, Except.bind]
      rw [hr]
      simp [hz]
  · intro hm hn
    constructor
    · rw [eval2_u_div, hl]
      simp only [bind, Except.bind]
      rw [hr]
      simp [hm, hn, hsigned]
    · rw [eval2_u_mod, hl]
      simp only [bind, Except.bind]
      rw [hr]
      simp [hm, hn, hsigned]
  · intro n lm s s' v hD hok he
    exact eval2_range D hD recov n hok lm s s' v he

/-- C8, counterexample to the claimed general 32-bit truncation: the
`int`-typed addition `2147483647 + 1` evaluates to `2147483648`, which
is not a 32-bit value (its 32-bit truncation differs). -/
theorem c8_counterexample :
    eval2 (fun _ => 0) false false
      (.add ty_int (.num ty_int 2147483647) (.num ty_int 1)) {} =
      .ok (2147483648, {}) ∧ sext32 2147483648 ≠ 2147483648 := by
  constructor
  · rfl
  · decide

theorem c8_witness :
    eval2 (fun _ => (0 : Rat)) true false
      (.add ty_int (.num ty_int 3) (.num ty_int (-5))) {} =
      .ok (wrap64 (3 + -5), {}) :=
  (c8_eval2_arithmetic (fun _ => 0) true ty_int (.num ty_int 3)
    (.num ty_int (-5)) {} {} {} 3 (-5) rfl rfl rfl).1

/-! ## Temporary-spill stack of the code generator (src/codegen.c)

`tmp_stk` is the stack of spill slots pushed by `push_tmpstack`
(src/codegen.c:45) and popped by `pop_tmpstack` (src/codegen.c:72);
`emit_text` asserts its depth is 0 after generating a function body
(src/codegen.c:1669).  The state below carries the globals the two
functions read and write; `stk` is `tmp_stk.data[0..depth)` with the
most recent slot first, so the depth is `stk.length`.  Since the
control flow of `gen_expr`/`gen_addr`/`gen_stmt` never depends on
`tmp_stk`, each generator is embedded as the trace of `push_tmpstack`/
`pop_tmpstack` calls it performs (assembly output elided); `none`
models the `error_tok` / null-dereference paths, on which the process
dies before reaching the assertion. -/

structure TmpStk where
  lvar_stk_sz : Int
  dont_reuse_stack : Bool
  peak_stk_usage : Int
  stk : List Int
  deriving DecidableEq, Repr

/-- `push_tmpstack` (src/codegen.c:45): returns the chosen slot offset
and the updated state. -/
def push_tmpstack (sz : Int) (s : TmpStk) : Int × TmpStk :=
  if s.dont_reuse_stack then
    let peak := s.peak_stk_usage + 8 * sz
    (peak, { s with peak_stk_usage := peak, stk := peak :: s.stk })
  else
    let stk_pos :=
      (match s.stk with
       | p :: _ => p
       | [] => s.lvar_stk_sz) + 8 * sz
    (stk_pos, { s with peak_stk_usage := max s.peak_stk_usage stk_pos,
                       stk := stk_pos :: s.stk })

/-- `pop_tmpstack` (src/codegen.c:72); popping an empty stack reads
below the array (undefined behaviour), modelled as `none`. -/
def pop_tmpstack (s : TmpStk) : Option (Int × TmpStk) :=
  match s.stk with
  | p :: rest => some (p, { s with stk := rest })
  | [] => none

/-- One `push_tmpstack`/`pop_tmpstack` call.  `push 1` is `push`/`pushf`
(src/codegen.c:77,88), `push 2` is `push_x87` (src/codegen.c:98). -/
inductive StkOp where
  | push (sz : Int)
  | pop
  deriving DecidableEq, Repr

def applyOp (s : TmpStk) : StkOp → Option TmpStk
  | .push sz => some (push_tmpstack sz s).2
  | .pop => (pop_tmpstack s).map (fun p => p.2)

def applyOps (ops : List StkOp) (s : TmpStk) : Option TmpStk :=
  match ops with
  | [] => some s
  | op :: rest => applyOp s op >>= applyOps rest

/-- `is_bitfield` (src/type.c:74). -/
def is_bitfield : Node → Bool
  | .member _ _ mem => mem.is_bitfield
  | _ => false

/-- `node->lhs->kind == ND_VAR && !strcmp(node->lhs->var->name, "alloca")`
(src/codegen.c:978). -/
def is_alloca_ref : Node → Bool
  | .var _ ob => ob.name = "alloca"
  | _ => false

mutual

/-- Trace of `gen_expr` (src/codegen.c:797).  `store` (src/codegen.c:320)
starts with one pop; `load`, `cast`, `dealloc_vla`, `builtin_alloca`,
`gen_mem_copy`, `gen_mem_zero`, `copy_ret_buffer` and the
argument-placement helpers never touch `tmp_stk`. -/
def genExprOps : Node → Option (List StkOp)
  | .null_expr => some []
  | .num _ _ => some []
  | .pos _ l => genExprOps l
  | .neg _ l => genExprOps l
  | .var _ _ => some []
  | .member _ l _ =>
    match l with
    | .funcall fty fl fa frb =>
      if ((Node.funcall fty fl fa frb).ty.kind = .tstruct ∨
          (Node.funcall fty fl fa frb).ty.kind = .tunion) ∧ frb.isSome then
        genExprOps (Node.funcall fty fl fa frb)
      else none
    | .assign aty al ar =>
      if (Node.assign aty al ar).ty.kind = .tstruct ∨
         (Node.assign aty al ar).ty.kind = .tunion then
        genExprOps (Node.assign aty al ar)
      else none
    | .cond cty cc ct ce =>
      if (Node.cond cty cc ct ce).ty.kind = .tstruct ∨
         (Node.cond cty cc ct ce).ty.kind = .tunion then
        genExprOps (Node.cond cty cc ct ce)
      else none
    | .stmt_expr sty sb =>
      if (Node.stmt_expr sty sb).ty.kind = .tstruct ∨
         (Node.stmt_expr sty sb).ty.kind = .tunion then
        genExprOps (Node.stmt_expr sty sb)
      else none
    | .va_arg vty vl vv =>
      if (Node.va_arg vty vl vv).ty.kind = .tstruct ∨
         (Node.va_arg vty vl vv).ty.kind = .tunion then
        genExprOps (Node.va_arg vty vl vv)
      else none
    | lhs => genAddrOps lhs
  | .deref _ l => genExprOps l
  | .addr _ l => genAddrOps l
  | .assign _ l r => do
    let a ← genAddrOps l
    let b ← genExprOps r
    if is_bitfield l then
      some (a ++ [.push 1] ++ b ++ [.pop, .push 1, .pop])
    else
      some (a ++ [.push 1] ++ b ++ [.pop])
  | .stmt_expr _ body => genStmtsOps body
  | .chain _ l r | .comma _ l r => do
    let a ← genExprOps l
    let b ← genExprOps r
    some (a ++ b)
  | .cast _ l => genExprOps l
  | .memzero _ => some []
  | .cond _ c t e => do
    let a ← genExprOps c
    let b ← genExprOps t
    let d ← genExprOps e
    some (a ++ b ++ d)
  | .not _ l => genExprOps l
  | .bitnot _ l => genExprOps l
  | .logand _ l r | .logor _ l r => do
    let a ← genExprOps l
    let b ← genExprOps r
    some (a ++ b)
  | .funcall _ lhs args _ =>
    if is_alloca_ref lhs then
      genExprReqOps args
    else do
      let a ← genExprOps lhs
      let b ← genExprOptOps args
      some (a ++ [.push 1] ++ b ++ [.pop])
  | .label_val _ _ => some []
  | .alloca _ l _ => genExprOps l
  | .va_start l => genExprOps l
  | .va_copy l r => do
    let a ← genExprOps l
    let b ← genExprOps r
    some (a ++ [.push 1] ++ b ++ [.pop])
  | .va_arg _ l _ => genExprOps l
  | .add _ l r | .sub _ l r | .mul _ l r | .div _ l r
  | .eq _ l r | .ne _ l r | .lt _ l r | .le _ l r
  | .gt _ l r | .ge _ l r => do
    let a ← genExprOps l
    let b ← genExprOps r
    if l.ty.kind = .ldouble then
      some (a ++ [.push 2] ++ b ++ [.pop])
    else
      some (a ++ [.push 1] ++ b ++ [.pop])
  | .mod _ l r | .bitand _ l r | .bitor _ l r | .bitxor _ l r
  | .shl _ l r | .shr _ l r | .sar _ l r => do
    let a ← genExprOps l
    let b ← genExprOps r
    if l.ty.kind = .float ∨ l.ty.kind = .double ∨ l.ty.kind = .ldouble then
      none
    else
      some (a ++ [.push 1] ++ b ++ [.pop])
  | _ => none

/-- Trace of `gen_addr` (src/codegen.c:185). -/
def genAddrOps : Node → Option (List StkOp)
  | .var _ _ => some []
  | .deref _ l => genExprOps l
  | .chain _ l r | .comma _ l r => do
    let a ← genExprOps l
    let b ← genAddrOps r
    some (a ++ b)
  | .member _ l _ =>
    match l with
    | .funcall fty fl fa frb =>
      if ((Node.funcall fty fl fa frb).ty.kind = .tstruct ∨
          (Node.funcall fty fl fa frb).ty.kind = .tunion) ∧ frb.isSome then
        genExprOps (Node.funcall fty fl fa frb)
      else none
    | .assign aty al ar =>
      if (Node.assign aty al ar).ty.kind = .tstruct ∨
         (Node.assign aty al ar).ty.kind = .tunion then
        genExprOps (Node.assign aty al ar)
      else none
    | .cond cty cc ct ce =>
      if (Node.cond cty cc ct ce).ty.kind = .tstruct ∨
         (Node.cond cty cc ct ce).ty.kind = .tunion then
        genExprOps (Node.cond cty cc ct ce)
      else none
    | .stmt_expr sty sb =>
      if (Node.stmt_expr sty sb).ty.kind = .tstruct ∨
         (Node.stmt_expr sty sb).ty.kind = .tunion then
        genExprOps (Node.stmt_expr sty sb)
      else none
    | .va_arg vty vl vv =>
      if (Node.va_arg vty vl vv).ty.kind = .tstruct ∨
         (Node.va_arg vty vl vv).ty.kind = .tunion then
        genExprOps (Node.va_arg vty vl vv)
      else none
    | lhs => genAddrOps lhs
  | _ => none

/-- Trace of `gen_stmt` (src/codegen.c:1295).  `copy_struct_reg` and
`copy_struct_mem` never touch `tmp_stk`. -/
def genStmtOps : Node → Option (List StkOp)
  | .if_ c t e => do
    let a ← genExprOps c
    let b ← genStmtOps t
    let d ← genStmtOptOps e
    some (a ++ b ++ d)
  | .for_ ini c t inc => do
    let i ← genStmtOptOps ini
    let a ← genExprOptOps c
    let b ← genStmtOps t
    let n ← genExprOptOps inc
    some (i ++ a ++ b ++ n)
  | .do_ t c => do
    let b ← genStmtOps t
    let a ← genExprOps c
    some (b ++ a)
  | .switch c t => do
    let a ← genExprOps c
    let b ← genStmtOps t
    some (a ++ b)
  | .case_ lhs => genStmtOptOps lhs
  | .block body => genStmtsOps body
  | .goto_ => some []
  | .goto_expr l => genExprOps l
  | .label lhs => genStmtOptOps lhs
  | .return_ lhs => genExprOptOps lhs
  | .expr_stmt l => genExprOps l
  | .asm_ => some []
  | _ => none

/-- `if (node) gen_stmt(node)` on an optional statement operand. -/
def genStmtOptOps : Option Node → Option (List StkOp)
  | some x => genStmtOps x
  | none => some []

/-- `if (node) gen_expr(node)` on an optional expression operand. -/
def genExprOptOps : Option Node → Option (List StkOp)
  | some x => genExprOps x
  | none => some []

/-- `gen_expr(node)` on an operand the source dereferences
unconditionally (a null operand crashes, modelled as `none`). -/
def genExprReqOps : Option Node → Option (List StkOp)
  | some x => genExprOps x
  | none => none

/-- Trace of the `for (Node *n = node->body; n; n = n->next) gen_stmt(n)`
loops (src/codegen.c:1374, src/codegen.c:924). -/
def genStmtsOps : NodeSeq → Option (List StkOp)
  | .nil => some []
  | .cons n rest => do
    let a ← genStmtOps n
    let b ← genStmtsOps rest
    some (a ++ b)

end

theorem oBind_some {α β : Type} {x : Option α} {f : α → Option β} {b : β}
    (h : x >>= f = some b) : ∃ a, x = some a ∧ f a = some b := by
  cases x with
  | none => exact absurd h (by simp)
  | some a => exact ⟨a, rfl, by simpa using h⟩

theorem applyOps_append (a b : List StkOp) (s : TmpStk) :
    applyOps (a ++ b) s = applyOps a s >>= applyOps b := by
  induction a generalizing s with
  | nil => simp [applyOps]
  | cons op rest ih =>
    simp only [List.cons_append, applyOps]
    cases happ : applyOp s op <;> simp [happ, ih]

/-- A trace of `push_tmpstack`/`pop_tmpstack` calls that runs without
underflow and restores the stack exactly (the bookkeeping fields other
than `peak_stk_usage` untouched). -/
def Pres (ops : List StkOp) : Prop :=
  ∀ s : TmpStk, ∃ s' : TmpStk, applyOps ops s = some s' ∧
    s'.lvar_stk_sz = s.lvar_stk_sz ∧
    s'.dont_reuse_stack = s.dont_reuse_stack ∧
    s'.stk = s.stk

theorem pres_nil : Pres [] := fun s => ⟨s, rfl, rfl, rfl, rfl⟩

theorem pres_append {a b : List StkOp} (ha : Pres a) (hb : Pres b) :
    Pres (a ++ b) := by
  intro s
  obtain ⟨s1, h1, e1, e2, e3⟩ := ha s
  obtain ⟨s2, h2, f1, f2, f3⟩ := hb s1
  exact ⟨s2, by rw [applyOps_append, h1]; simpa using h2,
    by rw [f1, e1], by rw [f2, e2], by rw [f3, e3]⟩

theorem push_tmpstack_fields (sz : Int) (s : TmpStk) :
    (push_tmpstack sz s).2.lvar_stk_sz = s.lvar_stk_sz ∧
    (push_tmpstack sz s).2.dont_reuse_stack = s.dont_reuse_stack ∧
    ∃ off, (push_tmpstack sz s).2.stk = off :: s.stk := by
  unfold push_tmpstack
  split <;> simp

theorem applyOp_pop {s : TmpStk} {off : Int} {rest : List Int}
    (h : s.stk = off :: rest) :
    applyOp s .pop = some { s with stk := rest } := by
  unfold applyOp pop_tmpstack
  rw [h]
  rfl

theorem pres_wrap (sz : Int) {inner : List StkOp} (h : Pres inner) :
    Pres ([StkOp.push sz] ++ inner ++ [StkOp.pop]) := by
  intro s
  obtain ⟨g1, g2, off, g3⟩ := push_tmpstack_fields sz s
  obtain ⟨s2, h2, f1, f2, f3⟩ := h (push_tmpstack sz s).2
  have hpop : applyOp s2 .pop = some { s2 with stk := s.stk } :=
    applyOp_pop (f3.trans g3)
  refine ⟨{ s2 with stk := s.stk }, ?_, by simpa using f1.trans g1,
    by simpa using f2.trans g2, rfl⟩
  rw [applyOps_append, applyOps_append]
  have hp : applyOps [StkOp.push sz] s = some (push_tmpstack sz s).2 := rfl
  rw [hp]
  show applyOps inner (push_tmpstack sz s).2 >>= applyOps [StkOp.pop] = _
  rw [h2]
  show applyOps [StkOp.pop] s2 = _
  simp [applyOps, hpop]

theorem pres_congr {a b : List StkOp} (h : Pres a) (e : a = b) : Pres b :=
  e ▸ h

set_option maxHeartbeats 3200000 in
mutual

/-- `gen_expr` pushes and pops the temporary stack in balanced pairs:
whenever its trace is defined it runs without underflow and leaves the
stack exactly as it found it. -/
theorem genExprOps_pres : ∀ n : Node, ∀ ops : List StkOp,
    genExprOps n = some ops → Pres ops
  | .null_expr | .num _ _ | .var _ _ | .memzero _ | .label_val _ _ =>
    fun ops h => by
      have h' : some ([] : List StkOp) = some ops := h
      cases h'
      exact pres_nil
  | .pos _ l | .neg _ l | .deref _ l | .cast _ l | .not _ l | .bitnot _ l
  | .alloca _ l _ | .va_start l | .va_arg _ l _ =>
    fun ops h => genExprOps_pres l ops h
  | .addr _ l => fun ops h => genAddrOps_pres l ops h
  | .stmt_expr _ body => fun ops h => genStmtsOps_pres body ops h
  | .member _ l _ => by
    intro ops h
    cases l
    case funcall fty fl fa frb =>
      have h' : (if ((Node.funcall fty fl fa frb).ty.kind = .tstruct ∨
          (Node.funcall fty fl fa frb).ty.kind = .tunion) ∧ frb.isSome then
          genExprOps (Node.funcall fty fl fa frb)
        else none) = some ops := h
      split at h'
      · exact genExprOps_pres _ ops h'
      · exact Option.noConfusion h'
    case assign aty al ar =>
      have h' : (if (Node.assign aty al ar).ty.kind = .tstruct ∨
          (Node.assign aty al ar).ty.kind = .tunion then
          genExprOps (Node.assign aty al ar)
        else none) = some ops := h
      split at h'
      · exact genExprOps_pres _ ops h'
      · exact Option.noConfusion h'
    case cond cty cc ct ce =>
      have h' : (if (Node.cond cty cc ct ce).ty.kind = .tstruct ∨
          (Node.cond cty cc ct ce).ty.kind = .tunion then
          genExprOps (Node.cond cty cc ct ce)
        else none) = some ops := h
      split at h'
      · exact genExprOps_pres _ ops h'
      · exact Option.noConfusion h'
    case stmt_expr sty sb =>
      have h' : (if (Node.stmt_expr sty sb).ty.kind = .tstruct ∨
          (Node.stmt_expr sty sb).ty.kind = .tunion then
          genExprOps (Node.stmt_expr sty sb)
        else none) = some ops := h
      split at h'
      · exact genExprOps_pres _ ops h'
      · exact Option.noConfusion h'
    case va_arg vty vl vv =>
      have h' : (if (Node.va_arg vty vl vv).ty.kind = .tstruct ∨
          (Node.va_arg vty vl vv).ty.kind = .tunion then
          genExprOps (Node.va_arg vty vl vv)
        else none) = some ops := h
      split at h'
      · exact genExprOps_pres _ ops h'
      · exact Option.noConfusion h'
    case var =>
      have h' : some ([] : List StkOp) = some ops := h
      cases h'
      exact pres_nil
    case deref dt dl => exact genExprOps_pres dl ops h
    case chain ct cl cr =>
      obtain ⟨a, ha, h⟩ := oBind_some h
      obtain ⟨b, hb, h⟩ := oBind_some h
      have h' : some (a ++ b) = some ops := h
      cases h'
      exact pres_append (genExprOps_pres cl a ha) (genAddrOps_pres cr b hb)
    case comma ct cl cr =>
      obtain ⟨a, ha, h⟩ := oBind_some h
      obtain ⟨b, hb, h⟩ := oBind_some h
      have h' : some (a ++ b) = some ops := h
      cases h'
      exact pres_append (genExprOps_pres cl a ha) (genAddrOps_pres cr b hb)
    case member mt ml mm => exact genAddrOps_pres (Node.member mt ml mm) ops h
    all_goals
      exact Option.noConfusion
        (show (none : Option (List StkOp)) = some ops from h)
  | .assign _ l r => by
    intro ops h
    obtain ⟨a, ha, h⟩ := oBind_some h
    obtain ⟨b, hb, h⟩ := oBind_some h
    have pa := genAddrOps_pres l a ha
    have pb := genExprOps_pres r b hb
    have h' : (if is_bitfield l then
        some (a ++ [StkOp.push 1] ++ b ++ [StkOp.pop, StkOp.push 1, StkOp.pop])
      else
        some (a ++ [StkOp.push 1] ++ b ++ [StkOp.pop])) = some ops := h
    split at h' <;> cases h'
    · exact pres_congr
        (pres_append (pres_append pa (pres_wrap 1 pb)) (pres_wrap 1 pres_nil))
        (by simp)
    · exact pres_congr (pres_append pa (pres_wrap 1 pb)) (by simp)
  | .chain _ l r | .comma _ l r | .logand _ l r | .logor _ l r => by
    intro ops h
    obtain ⟨a, ha, h⟩ := oBind_some h
    obtain ⟨b, hb, h⟩ := oBind_some h
    have h' : some (a ++ b) = some ops := h
    cases h'
    exact pres_append (genExprOps_pres l a ha) (genExprOps_pres r b hb)
  | .cond _ c t e => by
    intro ops h
    obtain ⟨a, ha, h⟩ := oBind_some h
    obtain ⟨b, hb, h⟩ := oBind_some h
    obtain ⟨d, hd, h⟩ := oBind_some h
    have h' : some (a ++ b ++ d) = some ops := h
    cases h'
    exact pres_append
      (pres_append (genExprOps_pres c a ha) (genExprOps_pres t b hb))
      (genExprOps_pres e d hd)
  | .funcall _ lhs args _ => by
    intro ops h
    have h' : (if is_alloca_ref lhs = true then
        genExprReqOps args
      else do
        let a ← genExprOps lhs
        let b ← genExprOptOps args
        some (a ++ [StkOp.push 1] ++ b ++ [StkOp.pop])) = some ops := h
    split at h'
    · exact genExprReqOps_pres args ops h'
    · obtain ⟨a, ha, h'⟩ := oBind_some h'
      obtain ⟨b, hb, h'⟩ := oBind_some h'
      have h'' : some (a ++ [StkOp.push 1] ++ b ++ [StkOp.pop]) = some ops := h'
      cases h''
      exact pres_congr
        (pres_append (genExprOps_pres lhs a ha)
          (pres_wrap 1 (genExprOptOps_pres args b hb)))
        (by simp)
  | .va_copy l r => by
    intro ops h
    obtain ⟨a, ha, h⟩ := oBind_some h
    obtain ⟨b, hb, h⟩ := oBind_some h
    have h' : some (a ++ [StkOp.push 1] ++ b ++ [StkOp.pop]) = some ops := h
    cases h'
    exact pres_congr
      (pres_append (genExprOps_pres l a ha) (pres_wrap 1 (genExprOps_pres r b hb)))
      (by simp)
  | .add _ l r | .sub _ l r | .mul _ l r | .div _ l r
  | .eq _ l r | .ne _ l r | .lt _ l r | .le _ l r
  | .gt _ l r | .ge _ l r => by
    intro ops h
    obtain ⟨a, ha, h⟩ := oBind_some h
    obtain ⟨b, hb, h⟩ := oBind_some h
    have pa := genExprOps_pres l a ha
    have pb := genExprOps_pres r b hb
    have h' : (if l.ty.kind = .ldouble then
        some (a ++ [StkOp.push 2] ++ b ++ [StkOp.pop])
      else
        some (a ++ [StkOp.push 1] ++ b ++ [StkOp.pop])) = some ops := h
    split at h' <;> cases h'
    · exact pres_congr (pres_append pa (pres_wrap 2 pb)) (by simp)
    · exact pres_congr (pres_append pa (pres_wrap 1 pb)) (by simp)
  | .mod _ l r | .bitand _ l r | .bitor _ l r | .bitxor _ l r
  | .shl _ l r | .shr _ l r | .sar _ l r => by
    intro ops h
    obtain ⟨a, ha, h⟩ := oBind_some h
    obtain ⟨b, hb, h⟩ := oBind_some h
    have pa := genExprOps_pres l a ha
    have pb := genExprOps_pres r b hb
    have h' : (if l.ty.kind = .float ∨ l.ty.kind = .double ∨
        l.ty.kind = .ldouble then
        none
      else
        some (a ++ [StkOp.push 1] ++ b ++ [StkOp.pop])) = some ops := h
    split at h'
    · exact Option.noConfusion h'
    · cases h'
      exact pres_congr (pres_append pa (pres_wrap 1 pb)) (by simp)
  | .if_ _ _ _ | .for_ _ _ _ _ | .do_ _ _ | .switch _ _ | .case_ _
  | .block _ | .goto_ | .goto_expr _ | .label _ | .return_ _
  | .expr_stmt _ | .asm_ =>
    fun ops h =>
      Option.noConfusion (show (none : Option (List StkOp)) = some ops from h)

/-- `gen_addr` pushes and pops the temporary stack in balanced pairs. -/
theorem genAddrOps_pres : ∀ n : Node, ∀ ops : List StkOp,
    genAddrOps n = some ops → Pres ops
  | .var _ _ => fun ops h => by
    have h' : some ([] : List StkOp) = some ops := h
    cases h'
    exact pres_nil
  | .deref _ l => fun ops h => genExprOps_pres l ops h
  | .chain _ l r | .comma _ l r => by
    intro ops h
    obtain ⟨a, ha, h⟩ := oBind_some h
    obtain ⟨b, hb, h⟩ := oBind_some h
    have h' : some (a ++ b) = some ops := h
    cases h'
    exact pres_append (genExprOps_pres l a ha) (genAddrOps_pres r b hb)
  | .member _ l _ => by
    intro ops h
    cases l
    case funcall fty fl fa frb =>
      have h' : (if ((Node.funcall fty fl fa frb).ty.kind = .tstruct ∨
          (Node.funcall fty fl fa frb).ty.kind = .tunion) ∧ frb.isSome then
          genExprOps (Node.funcall fty fl fa frb)
        else none) = some ops := h
      split at h'
      · exact genExprOps_pres _ ops h'
      · exact Option.noConfusion h'
    case assign aty al ar =>
      have h' : (if (Node.assign aty al ar).ty.kind = .tstruct ∨
          (Node.assign aty al ar).ty.kind = .tunion then
          genExprOps (Node.assign aty al ar)
        else none) = some ops := h
      split at h'
      · exact genExprOps_pres _ ops h'
      · exact Option.noConfusion h'
    case cond cty cc ct ce =>
      have h' : (if (Node.cond cty cc ct ce).ty.kind = .tstruct ∨
          (Node.cond cty cc ct ce).ty.kind = .tunion then
          genExprOps (Node.cond cty cc ct ce)
        else none) = some ops := h
      split at h'
      · exact genExprOps_pres _ ops h'
      · exact Option.noConfusion h'
    case stmt_expr sty sb =>
      have h' : (if (Node.stmt_expr sty sb).ty.kind = .tstruct ∨
          (Node.stmt_expr sty sb).ty.kind = .tunion then
          genExprOps (Node.stmt_expr sty sb)
        else none) = some ops := h
      split at h'
      · exact genExprOps_pres _ ops h'
      · exact Option.noConfusion h'
    case va_arg vty vl vv =>
      have h' : (if (Node.va_arg vty vl vv).ty.kind = .tstruct ∨
          (Node.va_arg vty vl vv).ty.kind = .tunion then
          genExprOps (Node.va_arg vty vl vv)
        else none) = some ops := h
      split at h'
      · exact genExprOps_pres _ ops h'
      · exact Option.noConfusion h'
    case var =>
      have h' : some ([] : List StkOp) = some ops := h
      cases h'
      exact pres_nil
    case deref dt dl => exact genExprOps_pres dl ops h
    case chain ct cl cr =>
      obtain ⟨a, ha, h⟩ := oBind_some h
      obtain ⟨b, hb, h⟩ := oBind_some h
      have h' : some (a ++ b) = some ops := h
      cases h'
      exact pres_append (genExprOps_pres cl a ha) (genAddrOps_pres cr b hb)
    case comma ct cl cr =>
      obtain ⟨a, ha, h⟩ := oBind_some h
      obtain ⟨b, hb, h⟩ := oBind_some h
      have h' : some (a ++ b) = some ops := h
      cases h'
      exact pres_append (genExprOps_pres cl a ha) (genAddrOps_pres cr b hb)
    case member mt ml mm => exact genAddrOps_pres (Node.member mt ml mm) ops h
    all_goals
      exact Option.noConfusion
        (show (none : Option (List StkOp)) = some ops from h)
  | .null_expr | .num _ _ | .pos _ _ | .neg _ _ | .assign _ _ _
  | .stmt_expr _ _ | .cast _ _ | .memzero _ | .cond _ _ _ _ | .not _ _
  | .bitnot _ _ | .logand _ _ _ | .logor _ _ _ | .funcall _ _ _ _
  | .label_val _ _ | .alloca _ _ _ | .va_start _ | .va_copy _ _
  | .va_arg _ _ _ | .add _ _ _ | .sub _ _ _ | .mul _ _ _ | .div _ _ _
  | .mod _ _ _ | .bitand _ _ _ | .bitor _ _ _ | .bitxor _ _ _
  | .shl _ _ _ | .shr _ _ _ | .sar _ _ _ | .eq _ _ _ | .ne _ _ _
  | .lt _ _ _ | .le _ _ _ | .gt _ _ _ | .ge _ _ _
  | .addr _ _ | .if_ _ _ _ | .for_ _ _ _ _ | .do_ _ _ | .switch _ _
  | .case_ _ | .block _ | .goto_ | .goto_expr _ | .label _ | .return_ _
  | .expr_stmt _ | .asm_ =>
    fun ops h =>
      Option.noConfusion (show (none : Option (List StkOp)) = some ops from h)

/-- `gen_stmt` pushes and pops the temporary stack in balanced pairs. -/
theorem genStmtOps_pres : ∀ n : Node, ∀ ops : List StkOp,
    genStmtOps n = some ops → Pres ops
  | .if_ c t e => by
    intro ops h
    obtain ⟨a, ha, h⟩ := oBind_some h
    obtain ⟨b, hb, h⟩ := oBind_some h
    obtain ⟨d, hd, h⟩ := oBind_some h
    have h' : some (a ++ b ++ d) = some ops := h
    cases h'
    exact pres_append
      (pres_append (genExprOps_pres c a ha) (genStmtOps_pres t b hb))
      (genStmtOptOps_pres e d hd)
  | .for_ ini c t inc => by
    intro ops h
    obtain ⟨i, hi, h⟩ := oBind_some h
    obtain ⟨a, ha, h⟩ := oBind_some h
    obtain ⟨b, hb, h⟩ := oBind_some h
    obtain ⟨m, hm, h⟩ := oBind_some h
    have h' : some (i ++ a ++ b ++ m) = some ops := h
    cases h'
    exact pres_append
      (pres_append
        (pres_append (genStmtOptOps_pres ini i hi) (genExprOptOps_pres c a ha))
        (genStmtOps_pres t b hb))
      (genExprOptOps_pres inc m hm)
  | .do_ t c => by
    intro ops h
    obtain ⟨b, hb, h⟩ := oBind_some h
    obtain ⟨a, ha, h⟩ := oBind_some h
    have h' : some (b ++ a) = some ops := h
    cases h'
    exact pres_append (genStmtOps_pres t b hb) (genExprOps_pres c a ha)
  | .switch c t => by
    intro ops h
    obtain ⟨a, ha, h⟩ := oBind_some h
    obtain ⟨b, hb, h⟩ := oBind_some h
    have h' : some (a ++ b) = some ops := h
    cases h'
    exact pres_append (genExprOps_pres c a ha) (genStmtOps_pres t b hb)
  | .case_ lhs => fun ops h => genStmtOptOps_pres lhs ops h
  | .block body => fun ops h => genStmtsOps_pres body ops h
  | .goto_ | .asm_ => fun ops h => by
    have h' : some ([] : List StkOp) = some ops := h
    cases h'
    exact pres_nil
  | .goto_expr l | .expr_stmt l => fun ops h => genExprOps_pres l ops h
  | .label lhs => fun ops h => genStmtOptOps_pres lhs ops h
  | .return_ lhs => fun ops h => genExprOptOps_pres lhs ops h
  | .null_expr | .num _ _ | .pos _ _ | .neg _ _ | .var _ _ | .member _ _ _
  | .deref _ _ | .addr _ _ | .assign _ _ _ | .stmt_expr _ _ | .chain _ _ _
  | .comma _ _ _ | .cast _ _ | .memzero _ | .cond _ _ _ _ | .not _ _
  | .bitnot _ _ | .logand _ _ _ | .logor _ _ _ | .funcall _ _ _ _
  | .label_val _ _ | .alloca _ _ _ | .va_start _ | .va_copy _ _
  | .va_arg _ _ _ | .add _ _ _ | .sub _ _ _ | .mul _ _ _ | .div _ _ _
  | .mod _ _ _ | .bitand _ _ _ | .bitor _ _ _ | .bitxor _ _ _
  | .shl _ _ _ | .shr _ _ _ | .sar _ _ _ | .eq _ _ _ | .ne _ _ _
  | .lt _ _ _ | .le _ _ _ | .gt _ _ _ | .ge _ _ _ =>
    fun ops h =>
      Option.noConfusion (show (none : Option (List StkOp)) = some ops from h)

theorem genStmtOptOps_pres : ∀ o : Option Node, ∀ ops : List StkOp,
    genStmtOptOps o = some ops → Pres ops
  | some x => fun ops h => genStmtOps_pres x ops h
  | none => fun ops h => by
    have h' : some ([] : List StkOp) = some ops := h
    cases h'
    exact pres_nil

theorem genExprOptOps_pres : ∀ o : Option Node, ∀ ops : List StkOp,
    genExprOptOps o = some ops → Pres ops
  | some x => fun ops h => genExprOps_pres x ops h
  | none => fun ops h => by
    have h' : some ([] : List StkOp) = some ops := h
    cases h'
    exact pres_nil

theorem genExprReqOps_pres : ∀ o : Option Node, ∀ ops : List StkOp,
    genExprReqOps o = some ops → Pres ops
  | some x => fun ops h => genExprOps_pres x ops h
  | none => fun ops h =>
    Option.noConfusion (show (none : Option (List StkOp)) = some ops from h)

/-- The statement list of a block or statement expression pushes and
pops the temporary stack in balanced pairs. -/
theorem genStmtsOps_pres : ∀ sq : NodeSeq, ∀ ops : List StkOp,
    genStmtsOps sq = some ops → Pres ops
  | .nil => fun ops h => by
    have h' : some ([] : List StkOp) = some ops := h
    cases h'
    exact pres_nil
  | .cons n rest => by
    intro ops h
    obtain ⟨a, ha, h⟩ := oBind_some h
    obtain ⟨b, hb, h⟩ := oBind_some h
    have h' : some (a ++ b) = some ops := h
    cases h'
    exact pres_append (genStmtOps_pres n a ha) (genStmtsOps_pres rest b hb)

end

/-- C9: code generation of a function body pushes and pops the
temporary-spill stack (`push_tmpstack`/`pop_tmpstack`, src/codegen.c:45,72)
in balanced pairs: starting from the empty stack `emit_text` gives it,
the stack after the body's trace is empty again, so the depth is 0 and
the assertion `assert(tmp_stk.depth == 0)` after `gen_stmt(fn->body)`
(src/codegen.c:1669) never fires. -/
theorem c9_tmpstack_depth_zero (body : Node) (ops : List StkOp)
    (s0 : TmpStk) (hgen : genStmtOps body = some ops) (h0 : s0.stk = []) :
    ∃ s1 : TmpStk, applyOps ops s0 = some s1 ∧ s1.stk = [] := by
  obtain ⟨s1, h1, _, _, e3⟩ := genStmtOps_pres body ops hgen s0
  exact ⟨s1, h1, e3.trans h0⟩

theorem c9_witness :
    genStmtOps (.expr_stmt (.assign ty_int
        (.var ty_int { name := "x", is_local := true, ty := ty_int })
        (.num ty_int 1))) =
      some [StkOp.push 1, StkOp.pop] ∧
    ∃ s1, applyOps [StkOp.push 1, StkOp.pop]
        { lvar_stk_sz := 16, dont_reuse_stack := false,
          peak_stk_usage := 16, stk := [] } = some s1 ∧ s1.stk = [] := by
  constructor
  · rfl
  · exact c9_tmpstack_depth_zero
      (.expr_stmt (.assign ty_int
        (.var ty_int { name := "x", is_local := true, ty := ty_int })
        (.num ty_int 1)))
      [StkOp.push 1, StkOp.pop]
      { lvar_stk_sz := 16, dont_reuse_stack := false,
        peak_stk_usage := 16, stk := [] } rfl rfl

/-! ## SysV chunk classification (src/codegen.c `has_flonum`)

`has_flonum` walks a (possibly nested) struct/union/array type and
tests the scalar leaves against the byte range `[lo, hi)` of one
eightbyte chunk.  `CTy` is the recursive view of `Type` that the walk
needs: scalar leaves, arrays, and structs/unions with per-member
offsets. -/

mutual

inductive CTy where
  | scalar (kind : TyKind) (size : Int)
  | array (base : CTy) (array_len : Nat)
  | strct (members : CMems) (size : Int)
  | tunion (members : CMems) (size : Int)

inductive CMems where
  | nil
  | cons (offset : Int) (ty : CTy) (rest : CMems)

end

/-- `ty->size` (an array's size is `base->size * array_len`). -/
def ctySize : CTy → Int
  | .scalar _ sz => sz
  | .array base len => ctySize base * len
  | .strct _ sz => sz
  | .tunion _ sz => sz

mutual

/-- `has_flonum` (src/codegen.c:524). -/
def has_flonum : CTy → Int → Int → Int → Bool
  | .strct mems _, lo, hi, offset => has_flonumMems mems lo hi offset
  | .tunion mems _, lo, hi, offset => has_flonumMems mems lo hi offset
  | .array base len, lo, hi, offset =>
    (List.range len).all fun i =>
      has_flonum base lo hi (offset + ctySize base * i)
  | .scalar kind _, lo, hi, offset =>
    decide (offset < lo) || decide (hi ≤ offset) ||
    decide (kind = .float) || decide (kind = .double)

/-- The `for (Member *mem = ty->members; ...)` loop of `has_flonum`. -/
def has_flonumMems : CMems → Int → Int → Int → Bool
  | .nil, _, _, _ => true
  | .cons mofs mty rest, lo, hi, offset =>
    has_flonum mty lo hi (offset + mofs) && has_flonumMems rest lo hi offset

end

/-- `has_flonum1` (src/codegen.c:542). -/
def has_flonum1 (ty : CTy) : Bool := has_flonum ty 0 8 0

/-- `has_flonum2` (src/codegen.c:546). -/
def has_flonum2 (ty : CTy) : Bool := has_flonum ty 8 16 0

mutual

/-- The scalar leaves of a type: `(kind, start offset, size)` for every
scalar reached by the recursion of `has_flonum`, at the offsets it
visits them. -/
def leaves : CTy → Int → List (TyKind × Int × Int)
  | .scalar kind sz, off => [(kind, off, sz)]
  | .array base len, off =>
    (List.range len).flatMap fun i => leaves base (off + ctySize base * i)
  | .strct mems _, off => leavesMems mems off
  | .tunion mems _, off => leavesMems mems off

def leavesMems : CMems → Int → List (TyKind × Int × Int)
  | .nil, _ => []
  | .cons mofs mty rest, off => leaves mty (off + mofs) ++ leavesMems rest off

end

/-- The registers `copy_ret_buffer` (src/codegen.c:678) reads the (up
to two) chunks of a ≤16-byte struct/union return value from: `gp`/`fp`
counters as in the source; the second chunk reads `%xmm<fp>` when
FP-classified and `%rax`/`%rdx` (by `gp`) otherwise. -/
def copy_ret_buffer_regs (ty : CTy) : List String :=
  let c1fp := has_flonum1 ty
  let fp := if c1fp then 1 else 0
  let gp := if c1fp then 0 else 1
  let r1 := if c1fp then "%xmm0" else "%rax"
  if ctySize ty > 8 then
    let r2 :=
      if has_flonum2 ty then
        if fp = 0 then "%xmm0" else "%xmm1"
      else
        if gp = 0 then "%rax" else "%rdx"
    [r1, r2]
  else
    [r1]

/-- `struct {double d; int i;}`: double at offset 0, int at offset 8,
size 16. -/
def tyDoubleInt : CTy :=
  .strct (.cons 0 (.scalar .double 8) (.cons 8 (.scalar .int 4) .nil)) 16

/-- Packed `struct {int i; long l;} __attribute__((packed))`: int at
offset 0, long at offset 4, size 12. -/
def packedIntLong : CTy :=
  .strct (.cons 0 (.scalar .int 4) (.cons 4 (.scalar .long 8) .nil)) 12

mutual

/-- `has_flonum ty lo hi off` accepts exactly when every scalar leaf
whose START offset lies in `[lo, hi)` is float or double: leaves that
merely overlap the range are not examined. -/
theorem has_flonum_iff_leaves : ∀ t : CTy, ∀ lo hi off : Int,
    has_flonum t lo hi off = true ↔
      ∀ p ∈ leaves t off, p.2.1 < lo ∨ hi ≤ p.2.1 ∨
        p.1 = TyKind.float ∨ p.1 = TyKind.double
  | .scalar kind sz => by
    intro lo hi off
    simp [has_flonum, leaves]
    tauto
  | .array base len => by
    intro lo hi off
    simp only [has_flonum, leaves, List.all_eq_true, List.mem_range,
      List.mem_flatMap]
    constructor
    · rintro h p ⟨i, hi2, hp⟩
      exact (has_flonum_iff_leaves base lo hi (off + ctySize base * i)).mp
        (h i hi2) p hp
    · intro h i hi2
      exact (has_flonum_iff_leaves base lo hi (off + ctySize base * i)).mpr
        (fun p hp => h p ⟨i, hi2, hp⟩)
  | .strct mems sz => by
    intro lo hi off
    simp only [has_flonum, leaves]
    exact has_flonumMems_iff mems lo hi off
  | .tunion mems sz => by
    intro lo hi off
    simp only [has_flonum, leaves]
    exact has_flonumMems_iff mems lo hi off

theorem has_flonumMems_iff : ∀ ms : CMems, ∀ lo hi off : Int,
    has_flonumMems ms lo hi off = true ↔
      ∀ p ∈ leavesMems ms off, p.2.1 < lo ∨ hi ≤ p.2.1 ∨
        p.1 = TyKind.float ∨ p.1 = TyKind.double
  | .nil => by
    intro lo hi off
    simp [has_flonumMems, leavesMems]
  | .cons mofs mty rest => by
    intro lo hi off
    simp only [has_flonumMems, leavesMems, Bool.and_eq_true, List.mem_append]
    rw [has_flonum_iff_leaves mty lo hi (off + mofs),
      has_flonumMems_iff rest lo hi off]
    constructor
    · rintro ⟨h1, h2⟩ p (hp | hp)
      · exact h1 p hp
      · exact h2 p hp
    · intro h
      exact ⟨fun p hp => h p (Or.inl hp), fun p hp => h p (Or.inr hp)⟩

end

/-- C2 (amended): an eightbyte chunk `[lo, hi)` of a ≤16-byte struct or
union is FP-classified iff every scalar leaf whose start offset lies in
the chunk is float or double (a leaf that starts before the chunk is
not examined, even when its bytes extend into it); a `{double, int}`
struct is classified {FP, GP} and `copy_ret_buffer` reads its value
from `xmm0` and `rax`. -/
theorem c2_chunk_classification :
    (∀ t : CTy, ∀ lo hi off : Int, has_flonum t lo hi off = true ↔
      ∀ p ∈ leaves t off, p.2.1 < lo ∨ hi ≤ p.2.1 ∨
        p.1 = TyKind.float ∨ p.1 = TyKind.double) ∧
    (has_flonum1 tyDoubleInt = true ∧ has_flonum2 tyDoubleInt = false ∧
      copy_ret_buffer_regs tyDoubleInt = ["%xmm0", "%rax"]) :=
  ⟨has_flonum_iff_leaves, by decide, by decide, by decide⟩

/-- C2, counterexample to the claimed byte-wise classification: in the
packed struct `{int; long}` (long at offset 4, size 12) the second
chunk `[8, 16)` contains bytes 8..11 of the long member, yet
`has_flonum2` classifies it FP because no leaf STARTS inside the
chunk. -/
theorem c2_counterexample :
    has_flonum2 packedIntLong = true ∧
    (TyKind.long, 4, 8) ∈ leaves packedIntLong 0 ∧
    (4 : Int) ≤ 8 ∧ (8 : Int) < 4 + 8 ∧
    TyKind.long ≠ TyKind.float ∧ TyKind.long ≠ TyKind.double := by
  refine ⟨rfl, by decide, by norm_num, by norm_num, by decide, by decide⟩

theorem c2_witness : has_flonum tyDoubleInt 0 8 0 = true :=
  (c2_chunk_classification.1 tyDoubleInt 0 8 0).mpr (by decide)

/-! ## Assembly emission (src/codegen.c `emit_data`, `emit_text`, `codegen`)

The output is modelled as the list of lines `println` produces, in
order.  `AsmObj` carries the `Obj` fields the emitters read.  For a
function, `prologue_mid` stands for the lines of the variadic
register-save area, VLA/return-buffer bookkeeping and the
argument-spill loop (src/codegen.c:1589-1666), and `body_lines` for
the output of `gen_stmt(fn->body)`; both are kept abstract because the
claims only concern the surrounding frame.  The `sub $..., %rsp` line
is written into the blank placeholder after the prologue via
`fseek` (src/codegen.c:1584,1672-1675), so in the finished file it
appears at that position with value `align_to(peak_stk_usage, 16)`,
modelled by the field `sub_rsp`. -/

structure CgOpts where
  opt_g : Bool := false
  opt_fcommon : Bool := true
  opt_data_sections : Bool := false
  opt_func_sections : Bool := false
  deriving DecidableEq, Repr

structure AsmObj where
  name : String
  is_function : Bool := false
  is_definition : Bool := false
  is_live : Bool := false
  is_static : Bool := false
  is_tentative : Bool := false
  is_tls : Bool := false
  init_data : Option (List Int) := none
  rel : List (Int × String × Int) := []
  size : Int := 0
  align : Int := 0
  ty_kind : TyKind := .int
  prologue_mid : List String := []
  body_lines : List String := []
  sub_rsp : Int := 0
  deriving DecidableEq, Repr

/-- widcc prints every symbol name quoted: `\"%s\"`. -/
def quoteName (s : String) : String := "\"" ++ s ++ "\""

/-- `%+ld` of a relocation addend. -/
def fmtPlus (a : Int) : String :=
  if 0 ≤ a then "+" ++ toString a else toString a

/-- The `while (pos < var->ty->size)` payload loop of `emit_data`
(src/codegen.c:1486-1495): a `.quad` per relocation at the cursor,
`.byte` otherwise.  The fuel is the byte count; each step advances the
cursor by at least one byte. -/
def payloadLines : Nat → List (Int × String × Int) → List Int → Int → Int →
    List String
  | 0, _, _, _, _ => []
  | fuel + 1, rel, data, pos, size =>
    if pos < size then
      match rel with
      | (ofs, label, addend) :: rest =>
        if ofs = pos then
          ("  .quad " ++ quoteName label ++ fmtPlus addend) ::
            payloadLines fuel rest data (pos + 8) size
        else
          ("  .byte " ++ toString (data.getD pos.toNat 0)) ::
            payloadLines fuel rel data (pos + 1) size
      | [] =>
        ("  .byte " ++ toString (data.getD pos.toNat 0)) ::
          payloadLines fuel [] data (pos + 1) size
    else []

/-- The lines `emit_data` (src/codegen.c:1450) prints for one global. -/
def emit_data_var (o : CgOpts) (v : AsmObj) : List String :=
  if v.is_function || !v.is_definition then []
  else
    let l1 := if v.is_static then "  .local " ++ quoteName v.name
              else "  .globl " ++ quoteName v.name
    let align := if v.ty_kind = .array ∧ v.size ≥ 16 then max 16 v.align
                 else v.align
    if o.opt_fcommon && v.is_tentative then
      [l1, "  .comm " ++ quoteName v.name ++ ", " ++ toString v.size ++
        ", " ++ toString align]
    else
      match v.init_data with
      | some data =>
        [l1,
         if v.is_tls && o.opt_data_sections then
           "  .section .tdata." ++ quoteName v.name ++ ",\"awT\",@progbits"
         else if v.is_tls then
           "  .section .tdata,\"awT\",@progbits"
         else if o.opt_data_sections then
           "  .section .data." ++ quoteName v.name ++ ",\"aw\",@progbits"
         else "  .data",
         "  .type " ++ quoteName v.name ++ ", @object",
         "  .size " ++ quoteName v.name ++ ", " ++ toString v.size,
         "  .align " ++ toString align,
         quoteName v.name ++ ":"] ++
        payloadLines v.size.toNat v.rel data 0 v.size
      | none =>
        [l1,
         if v.is_tls && o.opt_data_sections then
           "  .section .tbss." ++ quoteName v.name ++ ",\"awT\",@nobits"
         else if v.is_tls then
           "  .section .tbss,\"awT\",@nobits"
         else if o.opt_data_sections then
           "  .section .bss." ++ quoteName v.name ++ ",\"aw\",@nobits"
         else "  .bss",
         "  .align " ++ toString align,
         quoteName v.name ++ ":",
         "  .zero " ++ toString v.size]

/-- `emit_data` (src/codegen.c:1450): the loop over the program. -/
def emit_data (o : CgOpts) : List AsmObj → List String
  | [] => []
  | v :: rest => emit_data_var o v ++ emit_data o rest

/-- The symbol directives and prologue `emit_text` prints before the
function body (src/codegen.c:1560-1584, with the placeholder already
patched to the `sub`). -/
def emitTextHeader (o : CgOpts) (fn : AsmObj) : List String :=
  [if fn.is_static then "  .local " ++ quoteName fn.name
   else "  .globl " ++ quoteName fn.name,
   if o.opt_func_sections then
     "  .section .text." ++ quoteName fn.name ++ ",\"ax\",@progbits"
   else "  .text",
   "  .type " ++ quoteName fn.name ++ ", @function",
   quoteName fn.name ++ ":",
   "  push %rbp",
   "  mov %rsp, %rbp",
   "  sub $" ++ toString fn.sub_rsp ++ ", %rsp"]

/-- The lines `emit_text` (src/codegen.c:1550) prints for one function:
directives, prologue, saved-argument area, the body, `mov $0, %rax`
for `main` only (src/codegen.c:1680-1682), and the epilogue. -/
def emit_text_fn (o : CgOpts) (fn : AsmObj) : List String :=
  if !fn.is_function || !fn.is_definition then []
  else if !fn.is_live then []
  else
    emitTextHeader o fn ++ fn.prologue_mid ++ fn.body_lines ++
    (if fn.name = "main" then ["  mov $0, %rax"] else []) ++
    ["9:", "  mov %rbp, %rsp", "  pop %rbp", "  ret"]

/-- `emit_text` (src/codegen.c:1550): the loop over the program. -/
def emit_text (o : CgOpts) : List AsmObj → List String
  | [] => []
  | f :: rest => emit_text_fn o f ++ emit_text o rest

/-- `codegen` (src/codegen.c:1691): optional `.file` lines under `-g`
(abstracted as `file_lines`), then the data sections, then the text
sections, then the GNU-stack marker. -/
def codegen (o : CgOpts) (file_lines : List String) (prog : List AsmObj) :
    List String :=
  (if o.opt_g then file_lines else []) ++
  emit_data o prog ++ emit_text o prog ++
  ["  .section  .note.GNU-stack,\"\",@progbits"]

theorem lastLine_append {α : Type} (xs : List α) (x : α) :
    (xs ++ [x]).getLast? = some x := by
  induction xs with
  | nil => rfl
  | cons a rest ih =>
    rw [List.cons_append]
    cases hr : rest ++ [x] with
    | nil => exact absurd hr (by simp)
    | cons y ys =>
      rw [List.getLast?_cons_cons]
      rw [← hr, ih]

/-- C4 (amended): the emitted assembly always ends with the line
`  .section  .note.GNU-stack,"",@progbits`, and the data sections come
BEFORE the text sections: `codegen` calls `emit_data` first and
`emit_text` second (src/codegen.c:1699-1700). -/
theorem c4_output_layout (o : CgOpts) (file_lines : List String)
    (prog : List AsmObj) :
    (codegen o file_lines prog).getLast? =
      some "  .section  .note.GNU-stack,\"\",@progbits" ∧
    codegen o file_lines prog =
      ((if o.opt_g then file_lines else []) ++ emit_data o prog) ++
      (emit_text o prog ++ ["  .section  .note.GNU-stack,\"\",@progbits"]) := by
  constructor
  · show ((if o.opt_g then file_lines else []) ++ emit_data o prog ++
      emit_text o prog ++ ["  .section  .note.GNU-stack,\"\",@progbits"]).getLast? = _
    exact lastLine_append _ _
  · unfold codegen
    simp [List.append_assoc]

/-- The program of the C4 counterexample: `int x = 1;` and an empty
live function `f`. -/
def c4_gvar_x : AsmObj :=
  { name := "x", is_definition := true, init_data := some [1, 0, 0, 0],
    size := 4, align := 4 }

def c4_fn_f : AsmObj :=
  { name := "f", is_function := true, is_definition := true,
    is_live := true }

/-- C4, counterexample to "data sections follow text": for the program
`int x = 1; void f() {}` the `.data` section of `x` is emitted before
the `.text` section of `f` (and the output still ends with the
GNU-stack line). -/
theorem c4_counterexample :
    codegen {} [] [c4_gvar_x, c4_fn_f] =
      ["  .globl \"x\"", "  .data", "  .type \"x\", @object",
       "  .size \"x\", 4", "  .align 4", "\"x\":",
       "  .byte 1", "  .byte 0", "  .byte 0", "  .byte 0",
       "  .globl \"f\"", "  .text", "  .type \"f\", @function", "\"f\":",
       "  push %rbp", "  mov %rsp, %rbp", "  sub $0, %rsp",
       "9:", "  mov %rbp, %rsp", "  pop %rbp", "  ret",
       "  .section  .note.GNU-stack,\"\",@progbits"] ∧
    (codegen {} [] [c4_gvar_x, c4_fn_f]).indexOf "  .data" <
      (codegen {} [] [c4_gvar_x, c4_fn_f]).indexOf "  .text" := by
  constructor
  · rfl
  · decide

/-- C10: for a live defined function, `emit_text` places
`  mov $0, %rax` between the body and the shared epilogue label `9:`
exactly when the function is named `main` (src/codegen.c:1680-1682);
any other function's body is followed immediately by the epilogue. -/
theorem c10_main_implicit_return (o : CgOpts) (fn : AsmObj)
    (hf : fn.is_function = true) (hd : fn.is_definition = true)
    (hl : fn.is_live = true) :
    emit_text_fn o fn =
      emitTextHeader o fn ++ fn.prologue_mid ++ fn.body_lines ++
      (if fn.name = "main" then ["  mov $0, %rax"] else []) ++
      ["9:", "  mov %rbp, %rsp", "  pop %rbp", "  ret"] ∧
    (fn.name = "main" → "  mov $0, %rax" ∈ emit_text_fn o fn) ∧
    (fn.name ≠ "main" →
      emit_text_fn o fn =
        emitTextHeader o fn ++ fn.prologue_mid ++ fn.body_lines ++
        ["9:", "  mov %rbp, %rsp", "  pop %rbp", "  ret"]) := by
  have he : emit_text_fn o fn =
      emitTextHeader o fn ++ fn.prologue_mid ++ fn.body_lines ++
      (if fn.name = "main" then ["  mov $0, %rax"] else []) ++
      ["9:", "  mov %rbp, %rsp", "  pop %rbp", "  ret"] := by
    unfold emit_text_fn
    rw [hf, hd, hl]
    simp
  refine ⟨he, ?_, ?_⟩
  · intro hm
    rw [he, hm]
    simp
  · intro hm
    rw [he, if_neg hm]
    simp

/-- The C10 property at a concrete `main`. -/
def c10_main_fn : AsmObj :=
  { name := "main", is_function := true, is_definition := true,
    is_live := true }

theorem c10_witness :
    "  mov $0, %rax" ∈ emit_text_fn {} c10_main_fn :=
  (c10_main_implicit_return {} c10_main_fn rfl rfl rfl).2.1 rfl

/-! ## Macro locks of the rescanning loop (src/preprocess.c)

`preprocess2` (src/preprocess.c:970) walks the token stream; a macro
expansion pushes the macro on the `locked_macros` stack together with
its `stop_tok`, the token right after the invocation
(`push_macro_lock`, src/preprocess.c:130), and `pop_macro_lock`
(src/preprocess.c:137) releases the most recent locks whose `stop_tok`
IS the token the cursor reached (pointer identity).  Tokens carry
numeric ids modelling pointer identity: all tokens a state can ever
see have distinct ids, and tokens spliced by an expansion are fresh
copies (`copy_token` in `insert_objlike`/`subst`), stated as freshness
hypotheses of the step relation.  The relation `PStep` models one
iteration of the scan loop, including the trailing
`pop_macro_lock(tok)` of the `for` increment; the bodies produced by
`subst`, the balanced-parenthesis argument scan and the directive
handlers are abstracted (the scan's `pop_macro_lock` per argument
token is kept, as `foldPop`). -/

structure PTok where
  id : Nat
  name : String
  dontExpand : Bool := false
  isHash : Bool := false
  deriving DecidableEq, Repr

structure PMacro where
  mname : String
  is_objlike : Bool := true
  handler : Bool := false
  attr_hack : Bool := false
  deriving DecidableEq, Repr

/-- `find_macro` restricted to the name. -/
def findMacro (ME : List PMacro) (s : String) : Option PMacro :=
  ME.find? (fun m => m.mname = s)

/-- `pop_macro_lock` (src/preprocess.c:137): release the locks at the
top of the stack whose recorded stop token is the one reached. -/
def popLocks (i : Nat) : List (String × Nat) → List (String × Nat)
  | (m, stop) :: rest => if stop = i then popLocks i rest else (m, stop) :: rest
  | [] => []

structure PPState where
  input : List PTok
  eofId : Nat
  locks : List (String × Nat)
  out : List PTok
  deriving DecidableEq, Repr

/-- The id of the token the cursor stands on (`tok`), the EOF token
when the stream is exhausted. -/
def headId (input : List PTok) (eofId : Nat) : Nat :=
  match input with
  | t :: _ => t.id
  | [] => eofId

def pIds (l : List PTok) : List Nat := l.map PTok.id

def lockNames (L : List (String × Nat)) : List String := L.map Prod.fst

def lockStops (L : List (String × Nat)) : List Nat := L.map Prod.snd

/-- End of one loop iteration: the `for` increment runs
`pop_macro_lock(tok)` on the token the cursor now stands on. -/
def finishStep (input : List PTok) (eofId : Nat)
    (locks : List (String × Nat)) (out : List PTok) : PPState :=
  { input := input, eofId := eofId,
    locks := popLocks (headId input eofId) locks, out := out }

/-- The `pop_macro_lock` calls `prepare_funclike_args`
(src/preprocess.c:713) performs while scanning the argument region. -/
def foldPop (args : List PTok) (L : List (String × Nat)) :
    List (String × Nat) :=
  args.foldl (fun acc tk => popLocks tk.id acc) L

/-- One iteration of the scan loop of `preprocess2`
(src/preprocess.c:975-990) together with `expand_macro`
(src/preprocess.c:749). -/
inductive PStep (ME : List PMacro) : PPState → PPState → Prop where
  | emit (t : PTok) (rest : List PTok) (eofId : Nat)
      (locks : List (String × Nat)) (out : List PTok)
      (hno : findMacro ME t.name = none ∨ t.dontExpand = true ∨
        (∃ m, findMacro ME t.name = some m ∧ t.dontExpand = false ∧
          t.name ∉ lockNames locks ∧ m.handler = false ∧
          m.is_objlike = false ∧
          rest.head?.map PTok.name ≠ some "("))
      (hdir : ¬(t.isHash = true ∧ locks = [])) :
      PStep ME ⟨t :: rest, eofId, locks, out⟩
        (finishStep rest eofId locks (out ++ [t]))
  | mark (t : PTok) (rest : List PTok) (eofId : Nat)
      (locks : List (String × Nat)) (out : List PTok) (m : PMacro)
      (hm : findMacro ME t.name = some m)
      (hde : t.dontExpand = false)
      (hlocked : t.name ∈ lockNames locks)
      (hhash : t.isHash = false) :
      PStep ME ⟨t :: rest, eofId, locks, out⟩
        (finishStep rest eofId locks
          (out ++ [{ t with dontExpand := true }]))
  | builtin (t : PTok) (rest : List PTok) (eofId : Nat)
      (locks : List (String × Nat)) (out : List PTok) (m : PMacro)
      (spliced : List PTok)
      (hm : findMacro ME t.name = some m)
      (hde : t.dontExpand = false)
      (hunlocked : t.name ∉ lockNames locks)
      (hh : m.handler = true)
      (hfresh : ∀ st ∈ lockStops locks, st ∉ pIds spliced)
      (hnodup : (pIds spliced ++ pIds rest ++ [eofId]).Nodup) :
      PStep ME ⟨t :: rest, eofId, locks, out⟩
        (finishStep (spliced ++ rest) eofId locks out)
  | objlike_push (t : PTok) (rest : List PTok) (eofId : Nat)
      (locks : List (String × Nat)) (out : List PTok) (m : PMacro)
      (body : List PTok)
      (hm : findMacro ME t.name = some m)
      (hde : t.dontExpand = false)
      (hunlocked : t.name ∉ lockNames locks)
      (hh : m.handler = false) (hobj : m.is_objlike = true)
      (hne : body ≠ [])
      (hfresh : ∀ st ∈ lockStops locks, st ∉ pIds body)
      (hnodup : (pIds body ++ pIds rest ++ [eofId]).Nodup) :
      PStep ME ⟨t :: rest, eofId, locks, out⟩
        (finishStep (body ++ rest) eofId
          ((t.name, headId rest eofId) :: locks) out)
  | objlike_empty (t : PTok) (rest : List PTok) (eofId : Nat)
      (locks : List (String × Nat)) (out : List PTok) (m : PMacro)
      (hm : findMacro ME t.name = some m)
      (hde : t.dontExpand = false)
      (hunlocked : t.name ∉ lockNames locks)
      (hh : m.handler = false) (hobj : m.is_objlike = true) :
      PStep ME ⟨t :: rest, eofId, locks, out⟩
        (finishStep rest eofId locks out)
  | funclike_push (t : PTok) (args rest : List PTok) (eofId : Nat)
      (locks : List (String × Nat)) (out : List PTok) (m : PMacro)
      (body : List PTok)
      (hm : findMacro ME t.name = some m)
      (hde : t.dontExpand = false)
      (hunlocked : t.name ∉ lockNames locks)
      (hh : m.handler = false) (hobj : m.is_objlike = false)
      (hattr : m.attr_hack = false)
      (hlp : args.head?.map PTok.name = some "(")
      (hrp : args.getLast?.map PTok.name = some ")")
      (hne : body ≠ [])
      (hfresh : ∀ st ∈ lockStops (foldPop args locks), st ∉ pIds body)
      (hnodup : (pIds body ++ pIds rest ++ [eofId]).Nodup) :
      PStep ME ⟨t :: args ++ rest, eofId, locks, out⟩
        (finishStep (body ++ rest) eofId
          ((t.name, headId rest eofId) :: foldPop args locks) out)
  | funclike_empty (t : PTok) (args rest : List PTok) (eofId : Nat)
      (locks : List (String × Nat)) (out : List PTok) (m : PMacro)
      (hm : findMacro ME t.name = some m)
      (hde : t.dontExpand = false)
      (hunlocked : t.name ∉ lockNames locks)
      (hh : m.handler = false) (hobj : m.is_objlike = false)
      (hattr : m.attr_hack = false)
      (hlp : args.head?.map PTok.name = some "(")
      (hrp : args.getLast?.map PTok.name = some ")") :
      PStep ME ⟨t :: args ++ rest, eofId, locks, out⟩
        (finishStep rest eofId (foldPop args locks) out)
  | attr_lock (t : PTok) (args rest : List PTok) (eofId : Nat)
      (locks : List (String × Nat)) (out : List PTok) (m : PMacro)
      (hm : findMacro ME t.name = some m)
      (hde : t.dontExpand = false)
      (hunlocked : t.name ∉ lockNames locks)
      (hh : m.handler = false) (hobj : m.is_objlike = false)
      (hattr : m.attr_hack = true)
      (hlp : args.head?.map PTok.name = some "(")
      (hrp : args.getLast?.map PTok.name = some ")") :
      PStep ME ⟨t :: args ++ rest, eofId, locks, out⟩
        (finishStep (t :: args ++ rest) eofId
          ((t.name, headId rest eofId) :: foldPop args locks) out)
  | directive (t : PTok) (rest : List PTok) (eofId : Nat) (out : List PTok)
      (inp : List PTok) (outNew : List PTok)
      (hhash : t.isHash = true)
      (hnodup : (pIds inp ++ [eofId]).Nodup) :
      PStep ME ⟨t :: rest, eofId, [], out⟩ ⟨inp, eofId, [], outNew⟩

/-- Stops of pending locks lie ahead of the cursor, most recent lock
first (nesting): each lock's stop occurs in the stream, strictly inside
the segment before every older lock's stop. -/
def Chain : List (String × Nat) → List Nat → Prop
  | [], _ => True
  | (_, stop) :: rest, xs =>
    ∃ pre suf, xs = pre ++ stop :: suf ∧ stop ∉ pre ∧ Chain rest (stop :: suf)

/-- The reachable-state invariant: token ids (with EOF) are distinct,
the state has already run `pop_macro_lock` on the token the cursor
stands on, and the lock stack is chained into the remaining stream. -/
def Inv (s : PPState) : Prop :=
  (pIds s.input ++ [s.eofId]).Nodup ∧
  popLocks (headId s.input s.eofId) s.locks = s.locks ∧
  Chain s.locks (pIds s.input ++ [s.eofId])

/-- LIFO release exactness of `pop_macro_lock`: it removes precisely
the maximal top segment of locks whose stop is the reached token, and
the surviving top lock (if any) has a different stop. -/
theorem popLocks_spec (i : Nat) (L : List (String × Nat)) :
    ∃ k, popLocks i L = L.drop k ∧
      (∀ p ∈ L.take k, p.2 = i) ∧
      ∀ p, (L.drop k).head? = some p → p.2 ≠ i := by
  induction L with
  | nil => exact ⟨0, rfl, by simp, by simp⟩
  | cons hd tl ih =>
    obtain ⟨mn, st⟩ := hd
    by_cases h : st = i
    · obtain ⟨k, h1, h2, h3⟩ := ih
      refine ⟨k + 1, ?_, ?_, ?_⟩
      · show popLocks i ((mn, st) :: tl) = tl.drop k
        unfold popLocks
        rw [if_pos h]
        exact h1
      · intro p hp
        rw [List.take_succ_cons] at hp
        rcases List.mem_cons.mp hp with hp | hp
        · rw [hp]; exact h
        · exact h2 p hp
      · intro p hp
        exact h3 p hp
    · refine ⟨0, ?_, by simp, ?_⟩
      · show popLocks i ((mn, st) :: tl) = (mn, st) :: tl
        unfold popLocks
        rw [if_neg h]
      · intro p hp
        rw [List.drop_zero] at hp
        cases hp
        exact h

theorem popLocks_cons (i : Nat) (mn : String) (st : Nat)
    (tl : List (String × Nat)) :
    popLocks i ((mn, st) :: tl) =
      if st = i then popLocks i tl else (mn, st) :: tl := rfl

theorem popLocks_idem (i : Nat) (L : List (String × Nat)) :
    popLocks i (popLocks i L) = popLocks i L := by
  induction L with
  | nil => rfl
  | cons hd tl ih =>
    obtain ⟨mn, st⟩ := hd
    rw [popLocks_cons]
    by_cases h : st = i
    · rw [if_pos h]
      exact ih
    · rw [if_neg h, popLocks_cons, if_neg h]

theorem chain_sub {L : List (String × Nat)} {pre : List Nat} {s0 : Nat}
    {suf : List Nat} (h : Chain L (s0 :: suf))
    (hnd : (pre ++ s0 :: suf).Nodup) : Chain L (pre ++ s0 :: suf) := by
  cases L with
  | nil => trivial
  | cons hd tl =>
    obtain ⟨mn, s1⟩ := hd
    obtain ⟨pre1, suf1, he, hn, hc⟩ := h
    refine ⟨pre ++ pre1, suf1, by rw [he, List.append_assoc], ?_, hc⟩
    intro hmem
    rcases List.mem_append.mp hmem with h1 | h1
    · have hs1 : s1 ∈ s0 :: suf := by
        rw [he]
        exact List.mem_append_right _ (List.mem_cons_self _ _)
      exact (List.disjoint_of_nodup_append hnd) h1 hs1
    · exact hn h1

theorem chain_drop {L : List (String × Nat)} {xs : List Nat}
    (h : Chain L xs) (hnd : xs.Nodup) : ∀ k, Chain (L.drop k) xs := by
  intro k
  induction k generalizing L with
  | zero => exact h
  | succ k ih =>
    cases L with
    | nil => trivial
    | cons hd tl =>
      obtain ⟨mn, s0⟩ := hd
      obtain ⟨pre, suf, he, hn, hc⟩ := h
      have htl : Chain tl xs := he ▸ chain_sub hc (he ▸ hnd)
      exact ih htl

theorem chain_cross {L : List (String × Nat)} {a : Nat} {xs : List Nat}
    (h : Chain L (a :: xs)) (hp : popLocks a L = L) : Chain L xs := by
  cases L with
  | nil => trivial
  | cons hd tl =>
    obtain ⟨mn, s0⟩ := hd
    obtain ⟨pre, suf, he, hn, hc⟩ := h
    have hne : s0 ≠ a := by
      intro hEq
      subst hEq
      unfold popLocks at hp
      rw [if_pos rfl] at hp
      obtain ⟨k, hk, _, _⟩ := popLocks_spec s0 tl
      rw [hk] at hp
      have := congrArg List.length hp
      simp [List.length_drop] at this
      omega
    cases pre with
    | nil =>
      rw [List.nil_append] at he
      injection he with h1 h2
      exact absurd h1.symm hne
    | cons p0 pre' =>
      rw [List.cons_append] at he
      injection he with h1 h2
      exact ⟨pre', suf, h2, fun hm => hn (List.mem_cons_of_mem _ hm), hc⟩

theorem chain_extend {L : List (String × Nat)} {xs : List Nat}
    (fresh : List Nat) (h : Chain L xs)
    (hf : ∀ st ∈ lockStops L, st ∉ fresh) : Chain L (fresh ++ xs) := by
  cases L with
  | nil => trivial
  | cons hd tl =>
    obtain ⟨mn, s0⟩ := hd
    obtain ⟨pre, suf, he, hn, hc⟩ := h
    refine ⟨fresh ++ pre, suf, by rw [he, List.append_assoc], ?_, hc⟩
    intro hm
    rcases List.mem_append.mp hm with h1 | h1
    · exact hf s0 (by simp [lockStops]) h1
    · exact hn h1

theorem popLocks_stable_of_head {i : Nat} {L : List (String × Nat)}
    (h : ∀ p, L.head? = some p → p.2 ≠ i) : popLocks i L = L := by
  cases L with
  | nil => rfl
  | cons hd tl =>
    obtain ⟨mn, st⟩ := hd
    show popLocks i ((mn, st) :: tl) = _
    unfold popLocks
    rw [if_neg (h (mn, st) rfl)]

theorem chain_fold : ∀ (args : List PTok) (L : List (String × Nat))
    (xs : List Nat), Chain L (pIds args ++ xs) →
    (pIds args ++ xs).Nodup → Chain (foldPop args L) xs := by
  intro args
  induction args with
  | nil =>
    intro L xs h _
    simpa [pIds, foldPop] using h
  | cons a args' ih =>
    intro L xs h hnd
    have hx : pIds (a :: args') ++ xs =
        a.id :: (pIds args' ++ xs) := by simp [pIds]
    rw [hx] at h hnd
    obtain ⟨k, hk, _, hhd⟩ := popLocks_spec a.id L
    have h1 : Chain (L.drop k) (a.id :: (pIds args' ++ xs)) :=
      chain_drop h hnd k
    have hstab : popLocks a.id (L.drop k) = L.drop k :=
      popLocks_stable_of_head hhd
    have h2 : Chain (popLocks a.id L) (pIds args' ++ xs) := by
      rw [hk]
      exact chain_cross h1 hstab
    have h3 := ih (popLocks a.id L) xs h2 (List.Nodup.of_cons hnd)
    simpa [foldPop] using h3

theorem chain_stops_mem {L : List (String × Nat)} {xs : List Nat}
    (h : Chain L xs) : ∀ p ∈ L, p.2 ∈ xs := by
  induction L generalizing xs with
  | nil => intro p hp; cases hp
  | cons hd tl ih =>
    obtain ⟨mn, s0⟩ := hd
    obtain ⟨pre, suf, he, hn, hc⟩ := h
    intro p hp
    rcases List.mem_cons.mp hp with hp | hp
    · rw [hp, he]
      exact List.mem_append_right _ (List.mem_cons_self _ _)
    · have := ih hc p hp
      rw [he]
      exact List.mem_append_right _ this

/-- No pending lock stops at the token the cursor stands on: a lock is
released exactly when the cursor crosses its stop token, never later. -/
theorem chain_stops_ne {L : List (String × Nat)} {a : Nat} {tail : List Nat}
    (h : Chain L (a :: tail)) (hst : popLocks a L = L)
    (hnd : (a :: tail).Nodup) : ∀ p ∈ L, p.2 ≠ a := by
  cases L with
  | nil => intro p hp; cases hp
  | cons hd tl =>
    obtain ⟨mn, s0⟩ := hd
    obtain ⟨pre, suf, he, hn, hc⟩ := h
    have hs0 : s0 ≠ a := by
      intro hEq
      subst hEq
      unfold popLocks at hst
      rw [if_pos rfl] at hst
      obtain ⟨k, hk, _, _⟩ := popLocks_spec s0 tl
      rw [hk] at hst
      have := congrArg List.length hst
      simp [List.length_drop] at this
      omega
    intro p hp
    rcases List.mem_cons.mp hp with hp | hp
    · rw [hp]; exact hs0
    · -- deeper stops live in s0 :: suf, which is inside tail
      have hmem : p.2 ∈ s0 :: suf := chain_stops_mem hc p hp
      cases pre with
      | nil =>
        rw [List.nil_append] at he
        injection he with h1 _
        exact absurd h1.symm hs0
      | cons p0 pre' =>
        rw [List.cons_append] at he
        injection he with h1 h2
        intro hEq
        have hin : a ∈ tail := by
          rw [h2]
          exact List.mem_append_right _ (hEq ▸ hmem)
        exact (List.nodup_cons.mp hnd).1 hin

theorem inv_finish {input : List PTok} {eofId : Nat}
    {L : List (String × Nat)} {out : List PTok}
    (hnd : (pIds input ++ [eofId]).Nodup)
    (hch : Chain L (pIds input ++ [eofId])) :
    Inv (finishStep input eofId L out) := by
  refine ⟨hnd, popLocks_idem _ _, ?_⟩
  obtain ⟨k, hk, _, _⟩ := popLocks_spec (headId input eofId) L
  show Chain (popLocks (headId input eofId) L) _
  rw [hk]
  exact chain_drop hch hnd k

theorem headId_decomp (rest : List PTok) (eofId : Nat) :
    ∃ suf, pIds rest ++ [eofId] = headId rest eofId :: suf := by
  cases rest with
  | nil => exact ⟨[], rfl⟩
  | cons r rs => exact ⟨pIds rs ++ [eofId], rfl⟩

/-- Every step of the scan loop preserves the lock invariant: lock
stops stay strictly ahead of the cursor, nested innermost-first, and
the stack is popped exactly at crossed stop tokens. -/
theorem pstep_inv {ME : List PMacro} {s s' : PPState}
    (h : PStep ME s s') (hInv : Inv s) : Inv s' := by
  cases h with
  | emit t rest eofId locks out hno hdir =>
    obtain ⟨hnd, hstab, hch⟩ := hInv
    exact inv_finish (List.Nodup.of_cons hnd) (chain_cross hch hstab)
  | mark t rest eofId locks out m hm hde hlocked hhash =>
    obtain ⟨hnd, hstab, hch⟩ := hInv
    exact inv_finish (List.Nodup.of_cons hnd) (chain_cross hch hstab)
  | builtin t rest eofId locks out m spliced hm hde hunlocked hh hfresh hnodup =>
    obtain ⟨hnd, hstab, hch⟩ := hInv
    have hch2 : Chain locks (pIds rest ++ [eofId]) := chain_cross hch hstab
    have hch3 : Chain locks (pIds spliced ++ (pIds rest ++ [eofId])) :=
      chain_extend _ hch2 hfresh
    have hnd3 : (pIds (spliced ++ rest) ++ [eofId]).Nodup := by
      simpa [pIds] using hnodup
    refine inv_finish hnd3 ?_
    simpa [pIds] using hch3
  | objlike_push t rest eofId locks out m body hm hde hunlocked hh hobj hne
      hfresh hnodup =>
    obtain ⟨hnd, hstab, hch⟩ := hInv
    have hch2 : Chain locks (pIds rest ++ [eofId]) := chain_cross hch hstab
    obtain ⟨suf, hsuf⟩ := headId_decomp rest eofId
    have hnd3 : (pIds (body ++ rest) ++ [eofId]).Nodup := by
      simpa [pIds] using hnodup
    refine inv_finish hnd3 ?_
    show Chain ((t.name, headId rest eofId) :: locks) _
    refine ⟨pIds body, suf, ?_, ?_, ?_⟩
    · rw [← hsuf]
      simp [pIds]
    · intro hmem
      have hstop : headId rest eofId ∈ pIds rest ++ [eofId] := by
        rw [hsuf]
        exact List.mem_cons_self _ _
      have hdisj := List.disjoint_of_nodup_append
        (by simpa [pIds] using hnodup :
          (pIds body ++ (pIds rest ++ [eofId])).Nodup)
      exact hdisj hmem hstop
    · rw [← hsuf]
      exact hch2
  | objlike_empty t rest eofId locks out m hm hde hunlocked hh hobj =>
    obtain ⟨hnd, hstab, hch⟩ := hInv
    exact inv_finish (List.Nodup.of_cons hnd) (chain_cross hch hstab)
  | funclike_push t args rest eofId locks out m body hm hde hunlocked hh hobj
      hattr hlp hrp hne hfresh hnodup =>
    obtain ⟨hnd, hstab, hch⟩ := hInv
    have hnd1 : (PTok.id t :: (pIds args ++ (pIds rest ++ [eofId]))).Nodup := by
      simpa [pIds] using hnd
    have hch1 : Chain locks
        (PTok.id t :: (pIds args ++ (pIds rest ++ [eofId]))) := by
      have : pIds (t :: args ++ rest) ++ [eofId] =
          PTok.id t :: (pIds args ++ (pIds rest ++ [eofId])) := by
        simp [pIds]
      exact this ▸ hch
    have hstab1 : popLocks (PTok.id t) locks = locks := hstab
    have hch2 : Chain locks (pIds args ++ (pIds rest ++ [eofId])) :=
      chain_cross hch1 hstab1
    have hfold : Chain (foldPop args locks) (pIds rest ++ [eofId]) :=
      chain_fold args locks _ hch2 (List.Nodup.of_cons hnd1)
    obtain ⟨suf, hsuf⟩ := headId_decomp rest eofId
    have hnd3 : (pIds (body ++ rest) ++ [eofId]).Nodup := by
      simpa [pIds] using hnodup
    refine inv_finish hnd3 ?_
    show Chain ((t.name, headId rest eofId) :: foldPop args locks) _
    refine ⟨pIds body, suf, ?_, ?_, ?_⟩
    · rw [← hsuf]
      simp [pIds]
    · intro hmem
      have hstop : headId rest eofId ∈ pIds rest ++ [eofId] := by
        rw [hsuf]
        exact List.mem_cons_self _ _
      have hdisj := List.disjoint_of_nodup_append
        (by simpa [pIds] using hnodup :
          (pIds body ++ (pIds rest ++ [eofId])).Nodup)
      exact hdisj hmem hstop
    · rw [← hsuf]
      exact hfold
  | funclike_empty t args rest eofId locks out m hm hde hunlocked hh hobj
      hattr hlp hrp =>
    obtain ⟨hnd, hstab, hch⟩ := hInv
    have hnd1 : (PTok.id t :: (pIds args ++ (pIds rest ++ [eofId]))).Nodup := by
      simpa [pIds] using hnd
    have hch1 : Chain locks
        (PTok.id t :: (pIds args ++ (pIds rest ++ [eofId]))) := by
      have : pIds (t :: args ++ rest) ++ [eofId] =
          PTok.id t :: (pIds args ++ (pIds rest ++ [eofId])) := by
        simp [pIds]
      exact this ▸ hch
    have hch2 : Chain locks (pIds args ++ (pIds rest ++ [eofId])) :=
      chain_cross hch1 hstab
    have hfold : Chain (foldPop args locks) (pIds rest ++ [eofId]) :=
      chain_fold args locks _ hch2 (List.Nodup.of_cons hnd1)
    exact inv_finish (List.Nodup.of_append_right (List.Nodup.of_cons hnd1))
      hfold
  | attr_lock t args rest eofId locks out m hm hde hunlocked hh hobj hattr
      hlp hrp =>
    obtain ⟨hnd, hstab, hch⟩ := hInv
    have hnd1 : (PTok.id t :: (pIds args ++ (pIds rest ++ [eofId]))).Nodup := by
      simpa [pIds] using hnd
    have hch1 : Chain locks
        (PTok.id t :: (pIds args ++ (pIds rest ++ [eofId]))) := by
      have : pIds (t :: args ++ rest) ++ [eofId] =
          PTok.id t :: (pIds args ++ (pIds rest ++ [eofId])) := by
        simp [pIds]
      exact this ▸ hch
    have hch2 : Chain locks (pIds args ++ (pIds rest ++ [eofId])) :=
      chain_cross hch1 hstab
    have hfold : Chain (foldPop args locks) (pIds rest ++ [eofId]) :=
      chain_fold args locks _ hch2 (List.Nodup.of_cons hnd1)
    obtain ⟨suf, hsuf⟩ := headId_decomp rest eofId
    refine inv_finish hnd ?_
    show Chain ((t.name, headId rest eofId) :: foldPop args locks) _
    refine ⟨PTok.id t :: pIds args, suf, ?_, ?_, ?_⟩
    · rw [← hsuf]
      simp [pIds]
    · intro hmem
      have hstop : headId rest eofId ∈ pIds rest ++ [eofId] := by
        rw [hsuf]
        exact List.mem_cons_self _ _
      have hdisj := List.disjoint_of_nodup_append
        (by simpa [pIds] using hnd :
          ((PTok.id t :: pIds args) ++ (pIds rest ++ [eofId])).Nodup)
      exact hdisj hmem hstop
    · rw [← hsuf]
      exact hfold
  | directive t rest eofId out inp outNew hhash hnodup =>
    exact ⟨hnodup, rfl, trivial⟩

/-- A token naming a LOCKED macro is never expanded: the only step the
loop can take marks it `dont_expand` and emits it unchanged
(src/preprocess.c:758-761). -/
theorem locked_step_marks {ME : List PMacro} {s s' : PPState}
    (h : PStep ME s s') (t : PTok) (rest : List PTok) (m : PMacro)
    (hin : s.input = t :: rest)
    (hm : findMacro ME t.name = some m)
    (hlocked : t.name ∈ lockNames s.locks)
    (hde : t.dontExpand = false) (hhash : t.isHash = false) :
    s' = finishStep rest s.eofId s.locks
      (s.out ++ [{ t with dontExpand := true }]) := by
  cases h with
  | emit t' rest' eofId locks out hno hdir =>
    injection hin with h1 h2
    subst h1
    subst h2
    rcases hno with hno | hno | ⟨m', hm', hde', hunlocked, _⟩
    · rw [hm] at hno
      cases hno
    · rw [hde] at hno
      cases hno
    · exact absurd hlocked hunlocked
  | mark t' rest' eofId locks out m' hm' hde' hlocked' hhash' =>
    injection hin with h1 h2
    subst h1
    subst h2
    rfl
  | builtin t' rest' eofId locks out m' spliced hm' hde' hunlocked hh hf hn =>
    injection hin with h1 h2
    subst h1
    exact absurd hlocked hunlocked
  | objlike_push t' rest' eofId locks out m' body hm' hde' hunlocked hh hobj
      hne hf hn =>
    injection hin with h1 h2
    subst h1
    exact absurd hlocked hunlocked
  | objlike_empty t' rest' eofId locks out m' hm' hde' hunlocked hh hobj =>
    injection hin with h1 h2
    subst h1
    exact absurd hlocked hunlocked
  | funclike_push t' args rest' eofId locks out m' body hm' hde' hunlocked hh
      hobj hattr hlp hrp hne hf hn =>
    injection hin with h1 h2
    subst h1
    exact absurd hlocked hunlocked
  | funclike_empty t' args rest' eofId locks out m' hm' hde' hunlocked hh
      hobj hattr hlp hrp =>
    injection hin with h1 h2
    subst h1
    exact absurd hlocked hunlocked
  | attr_lock t' args rest' eofId locks out m' hm' hde' hunlocked hh hobj
      hattr hlp hrp =>
    injection hin with h1 h2
    subst h1
    exact absurd hlocked hunlocked
  | directive t' rest' eofId out inp outNew hhash' hnodup =>
    simp [lockNames] at hlocked

/-- C5: the macro-lock discipline of the rescanning loop.
(i) `pop_macro_lock` releases locks in LIFO order, removing exactly the
top run of locks whose recorded stop token is the token the cursor
reached; (ii) every loop step preserves the invariant that the lock
stack is nested into the remaining stream; (iii) under the invariant
every pending lock's stop token lies strictly ahead of the cursor, so a
macro stays locked until the cursor reaches the stop token recorded at
its expansion; (iv) a token that names a locked macro is never expanded
again: the loop marks it `dont_expand` and emits it as a plain
identifier, which is what prevents transitive self-expansion. -/
theorem c5_macro_lock_discipline (ME : List PMacro) :
    (∀ (i : Nat) (L : List (String × Nat)), ∃ k,
      popLocks i L = L.drop k ∧
      (∀ p ∈ L.take k, p.2 = i) ∧
      ∀ p, (L.drop k).head? = some p → p.2 ≠ i) ∧
    (∀ s s' : PPState, PStep ME s s' → Inv s → Inv s') ∧
    (∀ s : PPState, Inv s → ∀ p ∈ s.locks,
      p.2 ≠ headId s.input s.eofId) ∧
    (∀ s s' : PPState, PStep ME s s' →
      ∀ (t : PTok) (rest : List PTok) (m : PMacro), s.input = t :: rest →
      findMacro ME t.name = some m → t.name ∈ lockNames s.locks →
      t.dontExpand = false → t.isHash = false →
      s' = finishStep rest s.eofId s.locks
        (s.out ++ [{ t with dontExpand := true }])) := by
  refine ⟨popLocks_spec, fun s s' h hi => pstep_inv h hi, ?_, ?_⟩
  · intro s hInv p hp
    obtain ⟨hnd, hstab, hch⟩ := hInv
    obtain ⟨suf, hsuf⟩ := headId_decomp s.input s.eofId
    rw [hsuf] at hch hnd
    exact chain_stops_ne hch hstab hnd p hp
  · intro s s' h t rest m hin hm hlocked hde hhash
    exact locked_step_marks h t rest m hin hm hlocked hde hhash

/-- The single-macro environment and states of the C5 witness. -/
def c5_me : List PMacro := [{ mname := "A" }]

def c5_s0 : PPState :=
  { input := [{ id := 1, name := "A" }, { id := 2, name := "x" }],
    eofId := 9, locks := [("A", 2)], out := [] }

def c5_s1 : PPState :=
  finishStep [{ id := 2, name := "x" }] 9 [("A", 2)]
    [{ id := 1, name := "A", dontExpand := true }]

/-- The C5 properties exercised on a concrete state: macro `A` is
locked with stop token 2 while the cursor stands on a fresh occurrence
of `A` (token 1); the step marks it instead of expanding. -/
theorem c5_witness : Inv c5_s0 ∧ PStep c5_me c5_s0 c5_s1 ∧ Inv c5_s1 := by
  have hInv : Inv c5_s0 :=
    ⟨by decide, by decide, ⟨[1], [9], by decide, by decide, trivial⟩⟩
  have hstep : PStep c5_me c5_s0 c5_s1 := by
    have h := @PStep.mark c5_me
      { id := 1, name := "A" } [{ id := 2, name := "x" }] 9 [("A", 2)] []
      { mname := "A" } (by decide) rfl (by decide) rfl
    exact h
  exact ⟨hInv, hstep,
    (c5_macro_lock_discipline c5_me).2.1 _ _ hstep hInv⟩

end Widcc
